import Mathlib

/-!
# tt-automation-service: webhook pipeline

A shallow embedding of the webhook handler (`internal/handler/webhook.go`), the
video resolver (`internal/service/tiktok.go`), the media relay
(`internal/service/whatsapp.go`) and the acknowledgement helper
(`pkg/response/response.go`).

Conventions of the embedding:

* a Go `string` is a `List Char` (`Str`); string literals of the source are
  written `"...".toList`;
* the text of a JSON document is represented by the document it denotes
  (`Json`), `none` standing for text that is not a JSON document; the decoding
  of a document into the Go structs of `internal/model/payload.go` follows
  `encoding/json`;
* the two service interfaces held by the handler, and the HTTP client held by
  the services, are functions given from outside; every call made through them
  is recorded in the result.
-/

namespace TikTokAutomation

/-- A Go string. -/
abbrev Str := List Char

/-! ## JSON documents and `encoding/json` decoding -/

/-- A JSON document. Object members are kept in textual order, duplicates
included; a number keeps its literal. -/
inductive Json where
  | null
  | bool (b : Bool)
  | num (literal : Str)
  | str (s : Str)
  | arr (elems : List Json)
  | obj (members : List (Str × Json))

/-- Smallest rune of the case-folding orbit of `r`, for the orbits that contain
an ASCII letter: lower case to upper case, U+017F (long s) to `S`, U+212A
(Kelvin sign) to `K`. Other runes are left alone: they never fold to ASCII. -/
def foldRune (r : Char) : Char :=
  if 97 ≤ r.toNat ∧ r.toNat ≤ 122 then Char.ofNat (r.toNat - 32)
  else if r.toNat = 0x17F then 'S'
  else if r.toNat = 0x212A then 'K'
  else r

/-- Case-folded form of an object key or field name. -/
def foldName (s : Str) : Str := s.map foldRune

/-- Index of the struct field, among `names` (the `json:"..."` tags in
declaration order), that an object key addresses: an exact match is preferred,
otherwise the first field equal to the key up to case folding. -/
def findField (names : List Str) (key : Str) : Option Nat :=
  match names.indexOf? key with
  | some i => some i
  | none => (names.map foldName).indexOf? (foldName key)

/-- Decoding of a JSON value into a Go `string` variable holding `cur`. The
second component tells whether an `UnmarshalTypeError` was recorded. -/
def decodeString (j : Json) (cur : Str) : Str × Bool :=
  match j with
  | .str s => (s, false)
  | .null => (cur, false)
  | _ => (cur, true)

/-- Decoding of a JSON value into a Go struct variable holding `cur`. `names`
are the field tags, `setField i v x` decodes `v` into field `i` of `x`. Members
are processed in order; a key that addresses no field is skipped; a recorded
type error does not stop the decoding. -/
def decodeStruct {α : Type} (names : List Str) (setField : Nat → Json → α → α × Bool)
    (j : Json) (cur : α) : α × Bool :=
  match j with
  | .obj members =>
    members.foldl
      (fun acc kv =>
        match findField names kv.1 with
        | none => acc
        | some i =>
          let r := setField i kv.2 acc.1
          (r.1, acc.2 || r.2))
      (cur, false)
  | .null => (cur, false)
  | _ => (cur, true)

/-! ## `internal/model/payload.go` -/

/-- The struct `WebhookPayload.Data.FullMessage.Key`. -/
structure Key where
  SenderPn : Str := []

/-- The struct `WebhookPayload.Data.FullMessage`. -/
structure FullMessage where
  Key : Key := {}

/-- The struct `WebhookPayload.Data`. -/
structure Data where
  Content : Str := []
  FullMessage : FullMessage := {}

/-- The struct `WebhookPayload`. -/
structure WebhookPayload where
  SessionId : Str := []
  Data : Data := {}

/-- The struct `WebhookWrapper`. -/
structure WebhookWrapper where
  Body : WebhookPayload := {}

/-- Decoding into the struct `Key` (tag `senderPn`). -/
def decodeKey : Json → Key → Key × Bool :=
  decodeStruct ["senderPn".toList] fun i v x =>
    match i with
    | 0 => let r := decodeString v x.SenderPn; ({ x with SenderPn := r.1 }, r.2)
    | _ => (x, false)

/-- Decoding into the struct `FullMessage` (tag `key`). -/
def decodeFullMessage : Json → FullMessage → FullMessage × Bool :=
  decodeStruct ["key".toList] fun i v x =>
    match i with
    | 0 => let r := decodeKey v x.Key; ({ x with Key := r.1 }, r.2)
    | _ => (x, false)

/-- Decoding into the struct `Data` (tags `content`, `fullMessage`). -/
def decodeData : Json → Data → Data × Bool :=
  decodeStruct ["content".toList, "fullMessage".toList] fun i v x =>
    match i with
    | 0 => let r := decodeString v x.Content; ({ x with Content := r.1 }, r.2)
    | 1 => let r := decodeFullMessage v x.FullMessage; ({ x with FullMessage := r.1 }, r.2)
    | _ => (x, false)

/-- Decoding into `WebhookPayload` (tags `sessionId`, `data`). -/
def decodeWebhookPayload : Json → WebhookPayload → WebhookPayload × Bool :=
  decodeStruct ["sessionId".toList, "data".toList] fun i v x =>
    match i with
    | 0 => let r := decodeString v x.SessionId; ({ x with SessionId := r.1 }, r.2)
    | 1 => let r := decodeData v x.Data; ({ x with Data := r.1 }, r.2)
    | _ => (x, false)

/-- Decoding into `WebhookWrapper` (tag `body`). -/
def decodeWebhookWrapper : Json → WebhookWrapper → WebhookWrapper × Bool :=
  decodeStruct ["body".toList] fun i v x =>
    match i with
    | 0 => let r := decodeWebhookPayload v x.Body; ({ x with Body := r.1 }, r.2)
    | _ => (x, false)

/-- Decoding of a JSON value into a `[]WebhookWrapper` variable holding `cur`:
an array replaces the slice, each element decoded into a zero wrapper; `null`
sets the slice to nil; anything else records a type error. -/
def decodeWrapperSlice (j : Json) (cur : List WebhookWrapper) : List WebhookWrapper × Bool :=
  match j with
  | .arr elems =>
    let rs := elems.map fun e => decodeWebhookWrapper e {}
    (rs.map Prod.fst, rs.any Prod.snd)
  | .null => ([], false)
  | _ => (cur, true)

/-- The call `json.Unmarshal(bodyBytes, &v)`: text that is not a JSON document
is refused before `v` is touched; otherwise the document is decoded into `v`
and the call fails when a type error was recorded. The result is the new value
of `v` and whether `err == nil`. -/
def Unmarshal {α : Type} (decode : Json → α → α × Bool) (doc : Option Json) (v : α) : α × Bool :=
  match doc with
  | none => (v, false)
  | some j => let r := decode j v; (r.1, !r.2)

/-! ## Payload normalisation (`HandleWebhook`, lines 46-64) -/

/-- The three decoding attempts of `HandleWebhook`: array of wrappers, single
wrapper, direct payload. `none` is the `Failed to decode JSON block` exit. -/
def normalizePayload (bodyBytes : Option Json) : Option WebhookPayload :=
  let payload : WebhookPayload := {}
  let arrayPayload := Unmarshal decodeWrapperSlice bodyBytes []
  match arrayPayload.2, arrayPayload.1 with
  | true, first :: _ => some first.Body
  | _, _ =>
    let singlePayload := Unmarshal decodeWebhookWrapper bodyBytes {}
    if singlePayload.2 && singlePayload.1.Body.SessionId != [] then
      some singlePayload.1.Body
    else
      let direct := Unmarshal decodeWebhookPayload bodyBytes payload
      if direct.2 then some direct.1 else none

/-- The JSON object of a message payload with the given three strings. -/
def payloadJson (sessionId content senderPn : Str) : Json :=
  .obj [("sessionId".toList, .str sessionId),
        ("data".toList, .obj [("content".toList, .str content),
          ("fullMessage".toList, .obj [("key".toList, .obj [("senderPn".toList, .str senderPn)])])])]

/-- The canonical message read off a decoded payload. -/
def canonical (p : WebhookPayload) : Str × Str × Str :=
  (p.SessionId, p.Data.Content, p.Data.FullMessage.Key.SenderPn)

/-! ## Regular expressions (`regexp`), for the pattern of `HandleWebhook` -/

/-- Syntax of the regular expressions used by the handler. A character class is
a list of inclusive ranges. -/
inductive Regex where
  | empty
  | lit (c : Char)
  | cls (ranges : List (Char × Char))
  | seq (a b : Regex)
  | alt (a b : Regex)
  | opt (a : Regex)
  | plus (a : Regex)

/-- Membership of a character in a class. -/
def inClass (ranges : List (Char × Char)) (c : Char) : Bool :=
  ranges.any fun r => decide (r.1.toNat ≤ c.toNat) && decide (c.toNat ≤ r.2.toNat)

/-- The regular expression of a literal string. -/
def Regex.lits : Str → Regex
  | [] => .empty
  | c :: cs => .seq (.lit c) (Regex.lits cs)

/-- The language of a regular expression. -/
inductive Matches : Regex → Str → Prop where
  | empty : Matches .empty []
  | lit (c : Char) : Matches (.lit c) [c]
  | cls (ranges : List (Char × Char)) (c : Char) : inClass ranges c = true → Matches (.cls ranges) [c]
  | seq {a b : Regex} {x y : Str} : Matches a x → Matches b y → Matches (.seq a b) (x ++ y)
  | altL {a b : Regex} {x : Str} : Matches a x → Matches (.alt a b) x
  | altR {a b : Regex} {x : Str} : Matches b x → Matches (.alt a b) x
  | optNone {a : Regex} : Matches (.opt a) []
  | optSome {a : Regex} {x : Str} : Matches a x → Matches (.opt a) x
  | plusOne {a : Regex} {x : Str} : Matches a x → Matches (.plus a) x
  | plusMore {a : Regex} {x y : Str} : Matches a x → Matches (.plus a) y → Matches (.plus a) (x ++ y)

/-- Greedy repetition: after one more iteration that consumed input, further
iterations are tried before stopping. -/
def plusLoop (step : Str → List Str) : Nat → Str → List Str
  | 0, _ => []
  | fuel + 1, s =>
    (step s).flatMap fun r => (if r.length < s.length then plusLoop step fuel r else []) ++ [r]

/-- The matches of `re` anchored at the start of `s`, each given by the input
left after it, in the order a backtracking search finds them (the preference
order of `regexp`: first alternative first, greedy operators). -/
def ends : Regex → Str → List Str
  | .empty, s => [s]
  | .lit c, s =>
    match s with
    | x :: r => if x = c then [r] else []
    | [] => []
  | .cls ranges, s =>
    match s with
    | x :: r => if inClass ranges x then [r] else []
    | [] => []
  | .seq a b, s => (ends a s).flatMap (ends b)
  | .alt a b, s => ends a s ++ ends b s
  | .opt a, s => ends a s ++ [s]
  | .plus a, s => plusLoop (ends a) (s.length + 1) s

/-- The leftmost match of `re` in `s`, preferred match at that position. -/
def findFrom (re : Regex) : Str → Option Str
  | [] =>
    match ends re [] with
    | _ :: _ => some []
    | [] => none
  | c :: t =>
    match ends re (c :: t) with
    | r :: _ => some ((c :: t).take ((c :: t).length - r.length))
    | [] => findFrom re t

/-- The method `(*Regexp).FindString`: the text of the leftmost match, the empty
string when there is none. -/
def FindString (re : Regex) (s : Str) : Str := (findFrom re s).getD []

/-- The pattern of `HandleWebhook`,
`https?://(?:www\.|vt\.)?tiktok\.com/[a-zA-Z0-9/_?=&%-]+`. -/
def tiktokRegex : Regex :=
  .seq (Regex.lits "http".toList) <|
  .seq (.opt (.lit 's')) <|
  .seq (Regex.lits "://".toList) <|
  .seq (.opt (.alt (Regex.lits "www.".toList) (Regex.lits "vt.".toList))) <|
  .seq (Regex.lits "tiktok.com/".toList) <|
  .plus (.cls [('a', 'z'), ('A', 'Z'), ('0', '9'), ('/', '/'), ('_', '_'), ('?', '?'),
               ('=', '='), ('&', '&'), ('%', '%'), ('-', '-')])

/-! ## Strings (`strings`) -/

/-- The function `strings.Contains`. -/
def Contains : Str → Str → Bool
  | [], substr => substr.isEmpty
  | c :: t, substr => substr.isPrefixOf (c :: t) || Contains t substr

/-- The function `unicode.IsSpace`. -/
def IsSpace (r : Char) : Bool :=
  let n := r.toNat
  if n ≤ 0xFF then
    n = 0x09 || n = 0x0A || n = 0x0B || n = 0x0C || n = 0x0D || n = 0x20 || n = 0x85 || n = 0xA0
  else
    n = 0x1680 || (0x2000 ≤ n && n ≤ 0x200A) || n = 0x2028 || n = 0x2029 || n = 0x202F ||
      n = 0x205F || n = 0x3000

/-- The function `strings.TrimSpace`. -/
def TrimSpace (s : Str) : Str :=
  ((s.dropWhile IsSpace).reverse.dropWhile IsSpace).reverse

/-- The index expression `s[i]` of Go; `none` is the run-time panic. -/
def byteAt (s : Str) (i : Int) : Option Char :=
  if 0 ≤ i ∧ i < s.length then s.get? i.toNat else none

/-- The slice expression `s[:j]` of Go; `none` is the run-time panic. -/
def sliceTo (s : Str) (j : Int) : Option Str :=
  if 0 ≤ j ∧ j ≤ s.length then some (s.take j.toNat) else none

/-! ## Errors -/

/-- Go error values. -/
inductive GoError where
  /-- The call `errors.New(text)`. -/
  | New (text : String)
  /-- An error returned by a library call (`net/http`, `encoding/json`). -/
  | lib (text : String)
  /-- The call `fmt.Errorf(format, n)`, one `%d` verb. -/
  | ErrorfD (format : String) (n : Int)
  /-- The call `fmt.Errorf(format, err)`, one `%w` verb, `err` not nil. -/
  | ErrorfW (format : String) (err : GoError)
  /-- The call `fmt.Errorf(format, nil)`, one `%w` verb. -/
  | ErrorfNil (format : String)
  deriving DecidableEq

/-- The call `fmt.Errorf(format, err)` with one `%w` verb; `none` is the nil error. -/
def Errorf (format : String) (err : Option GoError) : GoError :=
  match err with
  | some e => .ErrorfW format e
  | none => .ErrorfNil format

/-! ## `pkg/response/response.go` -/

/-- What a handler has written to its `http.ResponseWriter`. -/
structure ResponseWriter where
  status : Option Nat := none
  body : Str := []
  deriving DecidableEq

/-- The method `WriteHeader`: the first status written is the one sent. -/
def ResponseWriter.WriteHeader (w : ResponseWriter) (statusCode : Nat) : ResponseWriter :=
  match w.status with
  | none => { w with status := some statusCode }
  | some _ => w

/-- The method `Write`: an implicit `WriteHeader(200)` when no status was
written, then the bytes are appended to the body. -/
def ResponseWriter.Write (w : ResponseWriter) (b : Str) : ResponseWriter :=
  let w1 := w.WriteHeader 200
  { w1 with body := w1.body ++ b }

/-- The function `response.SendOK`. -/
def SendOK (w : ResponseWriter) : ResponseWriter :=
  (w.WriteHeader 200).Write "OK".toList

/-! ## `internal/handler/webhook.go` -/

/-- Result of `io.ReadAll(r.Body)`. -/
inductive ReadAll where
  | failed
  | bytes (doc : Option Json)

/-- The parts of `*http.Request` the handler reads. -/
structure Request where
  Method : Str
  Body : ReadAll

/-- The struct `WebhookHandler`: its two fields are interface values, here the
method each one provides. `FetchVideo` returns the media URL or an error,
`SendMedia` returns the error or nil. -/
structure WebhookHandler where
  tiktokService : Str → Except GoError Str
  whatsappService : Str → Str → Str → Option GoError

/-- A call made by the handler through one of its services. -/
inductive Call where
  | FetchVideo (url : Str)
  | SendMedia (number mediaURL caption : Str)
  deriving DecidableEq

/-- The `return` of `HandleWebhook` that ended the run, named after the log
line that precedes it. -/
inductive Stage where
  | invalidMethod
  | readBodyFailed
  | decodeFailed
  | sessionMismatch
  | noHttpsLink
  | noTikTokURL
  | fetchFailed
  | emptySenderPn
  | sendFailed
  | completed
  deriving DecidableEq

/-- What a run of `HandleWebhook` did: the response written, the `return`
reached, the result of the pattern search when the run got to it, and the
service calls in order. -/
structure Run where
  response : ResponseWriter
  stage : Stage
  targetURL : Option Str
  calls : List Call

/-- The handler `HandleWebhook`. `SESSION_ID` is the value of that environment
variable, `w` the response writer handed in by the server. -/
def HandleWebhook (h : WebhookHandler) (SESSION_ID : Str) (w : ResponseWriter) (r : Request) : Run :=
  let done (stage : Stage) (targetURL : Option Str) (calls : List Call) : Run :=
    -- deferred: response.SendOK(w)
    { response := SendOK w, stage := stage, targetURL := targetURL, calls := calls }
  if r.Method != "POST".toList then done .invalidMethod none []
  else
    match r.Body with
    | .failed => done .readBodyFailed none []
    | .bytes bodyBytes =>
      match normalizePayload bodyBytes with
      | none => done .decodeFailed none []
      | some payload =>
        let sessionId := payload.SessionId
        let content := payload.Data.Content
        let senderPn := payload.Data.FullMessage.Key.SenderPn
        let expectedSessionId := SESSION_ID
        if expectedSessionId != [] && sessionId != expectedSessionId then
          done .sessionMismatch none []
        else if !Contains content "https://".toList then
          done .noHttpsLink none []
        else
          let targetURL := FindString tiktokRegex content
          if targetURL == [] then done .noTikTokURL (some targetURL) []
          else
            match h.tiktokService targetURL with
            | .error _ => done .fetchFailed (some targetURL) [.FetchVideo targetURL]
            | .ok videoURL =>
              let caption := "ini bosque, video dari: ".toList ++ targetURL
              if senderPn == [] then
                done .emptySenderPn (some targetURL) [.FetchVideo targetURL]
              else
                match h.whatsappService senderPn videoURL caption with
                | some _ =>
                  done .sendFailed (some targetURL)
                    [.FetchVideo targetURL, .SendMedia senderPn videoURL caption]
                | none =>
                  done .completed (some targetURL)
                    [.FetchVideo targetURL, .SendMedia senderPn videoURL caption]

/-! ## The HTTP client held by the services -/

/-- An outbound request, as built by the services. -/
structure HttpRequest where
  Method : Str
  URL : Str
  Header : List (Str × Str)
  Body : Option Json

/-- An inbound response: status code, and the JSON document its body starts
with (`none` when the body does not start with one). -/
structure HttpResponse where
  StatusCode : Int
  Body : Option Json

/-- The outside world of a service. `NewRequest method url` is the error of
`http.NewRequestWithContext`, if any (a URL that does not parse).
`Do sent req` is the result of `client.Do(req)` when the requests `sent` went
out before it. -/
structure Client where
  NewRequest : Str → Str → Option GoError
  Do : List HttpRequest → HttpRequest → Except GoError HttpResponse

/-! ## `internal/service/tiktok.go` -/

/-- The struct `tiktokService`. -/
structure tiktokService where
  client : Client
  rapidApiHost : Str
  rapidApiKeys : List Str

/-- The inner struct of `tiktokAPIResponse`. -/
structure tiktokAPIData where
  Play : Str := []

/-- The struct `tiktokAPIResponse`. -/
structure tiktokAPIResponse where
  Data : tiktokAPIData := {}

/-- Decoding into the inner struct of `tiktokAPIResponse` (tag `play`). -/
def decodeTiktokAPIData : Json → tiktokAPIData → tiktokAPIData × Bool :=
  decodeStruct ["play".toList] fun i v x =>
    match i with
    | 0 => let r := decodeString v x.Play; ({ x with Play := r.1 }, r.2)
    | _ => (x, false)

/-- Decoding into `tiktokAPIResponse` (tag `data`). -/
def decodeTiktokAPIResponse : Json → tiktokAPIResponse → tiktokAPIResponse × Bool :=
  decodeStruct ["data".toList] fun i v x =>
    match i with
    | 0 => let r := decodeTiktokAPIData v x.Data; ({ x with Data := r.1 }, r.2)
    | _ => (x, false)

/-- The request built by one iteration of the loop of `FetchVideo`. -/
def lookupRequest (s : tiktokService) (apiEndpoint key : Str) : HttpRequest :=
  { Method := "GET".toList
    URL := apiEndpoint
    Header := [("X-RapidAPI-Host".toList, s.rapidApiHost),
               ("X-RapidAPI-Key".toList, TrimSpace key)]
    Body := none }

/-- One iteration of the loop of `FetchVideo`, for credential `key`, when the
requests `sent` went out before: `.ok play` is the `return` inside the loop,
`.error e` the value assigned to `lastErr` (the error of the JSON decoder is
written `.lib "json: decode"`). The second component is the requests sent so
far. The log line showing the first bytes of the key has no other effect and
is left out. -/
def tryKey (s : tiktokService) (apiEndpoint : Str) (sent : List HttpRequest) (key : Str) :
    Except GoError Str × List HttpRequest :=
  match s.client.NewRequest "GET".toList apiEndpoint with
  | some err => (.error err, sent)
  | none =>
    let req := lookupRequest s apiEndpoint key
    match s.client.Do sent req with
    | .error err => (.error err, sent ++ [req])
    | .ok resp =>
      if resp.StatusCode != 200 then
        (.error (.ErrorfD "HTTP status %d" resp.StatusCode), sent ++ [req])
      else
        let apiResp := Unmarshal decodeTiktokAPIResponse resp.Body {}
        if !apiResp.2 then (.error (.lib "json: decode"), sent ++ [req])
        else if apiResp.1.Data.Play != [] then (.ok apiResp.1.Data.Play, sent ++ [req])
        else (.error (.New "missing data.play in response"), sent ++ [req])

/-- The loop `for _, key := range s.rapidApiKeys` of `FetchVideo` and the
statement after it. -/
def fetchLoop (s : tiktokService) (apiEndpoint : Str) :
    List Str → Option GoError → List HttpRequest → Except GoError Str × List HttpRequest
  | [], lastErr, sent => (.error (Errorf "all API keys failed. Last error: %w" lastErr), sent)
  | key :: rest, _, sent =>
    match tryKey s apiEndpoint sent key with
    | (.ok play, sent1) => (.ok play, sent1)
    | (.error err, sent1) => fetchLoop s apiEndpoint rest (some err) sent1

/-- The method `FetchVideo`: its result, and the requests it sent in order. -/
def FetchVideo (s : tiktokService) (url : Str) : Except GoError Str × List HttpRequest :=
  if s.rapidApiHost == [] then (.error (.New "RAPIDAPI_HOST is missing"), [])
  else if s.rapidApiKeys.length == 0 then (.error (.New "RAPIDAPI_KEYS are missing"), [])
  else
    let apiEndpoint := "https://".toList ++ s.rapidApiHost ++ "/?url=".toList ++ url
    fetchLoop s apiEndpoint s.rapidApiKeys none []

/-! ## `internal/service/whatsapp.go` -/

/-- The struct `whatsappService`. -/
structure whatsappService where
  client : Client
  apiURL : Str
  apiKey : Str
  sessionId : Str

/-- The struct `whatsappPayload`. -/
structure whatsappPayload where
  Number : Str
  MediaUrl : Str
  Caption : Str
  MediaType : Str

/-- The call `json.Marshal(payload)` for a `whatsappPayload`; the two
`omitempty` fields are left out when empty. It returns no error for a struct of
strings. -/
def marshalWhatsappPayload (p : whatsappPayload) : Json :=
  .obj ([("number".toList, .str p.Number), ("mediaUrl".toList, .str p.MediaUrl)]
    ++ (if p.Caption == [] then [] else [("caption".toList, .str p.Caption)])
    ++ (if p.MediaType == [] then [] else [("mediaType".toList, .str p.MediaType)]))

/-- How a call of `SendMedia` ended. -/
inductive SendResult where
  | returned (err : Option GoError)
  | panicked
  deriving DecidableEq

/-- The method `SendMedia`: how it ended, and the requests it sent. -/
def SendMedia (s : whatsappService) (number mediaURL caption : Str) :
    SendResult × List HttpRequest :=
  if s.apiURL == [] then (.returned (some (.New "WA_API_URL is missing")), [])
  else if s.sessionId == [] then (.returned (some (.New "SESSION_ID is missing")), [])
  else
    let payload : whatsappPayload :=
      { Number := number, MediaUrl := mediaURL, Caption := caption, MediaType := "video".toList }
    let jsonValue := marshalWhatsappPayload payload
    let baseURL := s.apiURL
    match byteAt baseURL ((baseURL.length : Int) - 1) with
    | none => (.panicked, [])
    | some last =>
      let trimmed : Option Str :=
        if last == '/' then sliceTo baseURL ((baseURL.length : Int) - 1) else some baseURL
      match trimmed with
      | none => (.panicked, [])
      | some baseURL =>
        let endpoint := baseURL ++ "/api/whatsapp/session/".toList ++ s.sessionId
          ++ "/send-media".toList
        match s.client.NewRequest "POST".toList endpoint with
        | some err => (.returned (some (.ErrorfW "failed to create request: %w" err)), [])
        | none =>
          let req : HttpRequest :=
            { Method := "POST".toList
              URL := endpoint
              Header := [("Content-Type".toList, "application/json".toList),
                         ("Accept".toList, "application/json".toList)]
                ++ (if s.apiKey != [] then [("x-api-key".toList, s.apiKey)] else [])
              Body := some jsonValue }
          match s.client.Do [] req with
          | .error err => (.returned (some (.ErrorfW "request to WA API failed: %w" err)), [req])
          | .ok resp =>
            if resp.StatusCode ≥ 400 then
              (.returned (some (.ErrorfD "WA API returned error status: %d" resp.StatusCode)), [req])
            else (.returned none, [req])

/-! ## Reference notions used in the statements -/

/-- The array-of-wrapper form of a payload. -/
def arrayForm (p : Json) : Json := .arr [.obj [("body".toList, p)]]

/-- The single-wrapper form of a payload. -/
def wrapperForm (p : Json) : Json := .obj [("body".toList, p)]

/-- A `POST` request whose body was read and holds `doc`. -/
def postOf (doc : Option Json) : Request := { Method := "POST".toList, Body := .bytes doc }

/-- The endpoint string built by `FetchVideo` for host `s.rapidApiHost`. -/
def apiEndpointOf (s : tiktokService) (url : Str) : Str :=
  "https://".toList ++ s.rapidApiHost ++ "/?url=".toList ++ url

/-- The requests for the first `n` configured credentials, in configured order. -/
def lookupRequests (s : tiktokService) (url : Str) (n : Nat) : List HttpRequest :=
  (s.rapidApiKeys.take n).map (lookupRequest s (apiEndpointOf s url))

/-- Credential number `i` (counting from 0) succeeds with media URL `v`: its
request can be built, and sent after the requests of the credentials before
it, it is answered with status 200 and a body that decodes with a non-empty
`data.play`, which is `v`. -/
def SucceedsWith (s : tiktokService) (url : Str) (i : Nat) (v : Str) : Prop :=
  ∃ key resp, s.rapidApiKeys.get? i = some key ∧
    s.client.NewRequest "GET".toList (apiEndpointOf s url) = none ∧
    s.client.Do (lookupRequests s url i) (lookupRequest s (apiEndpointOf s url) key) = .ok resp ∧
    resp.StatusCode = 200 ∧
    (Unmarshal decodeTiktokAPIResponse resp.Body {}).2 = true ∧
    (Unmarshal decodeTiktokAPIResponse resp.Body {}).1.Data.Play = v ∧ v ≠ []

/-- Whether an object key addresses the field tagged `name` of a struct that
has this one field: the key is the tag, or equals it up to case folding. -/
def addresses (name key : Str) : Bool :=
  key == name || foldName key == foldName name

/-- The values given, in textual order, to the members of an object whose key
addresses the field tagged `name`. -/
def valuesFor (name : Str) (members : List (Str × Json)) : List Json :=
  (members.filter fun kv => addresses name kv.1).map Prod.snd

/-- The members of a JSON object; no members for any other value. -/
def objectMembers : Json → List (Str × Json)
  | .obj members => members
  | _ => []

/-- A value that a struct field accepts: an object or `null`. -/
def isObjectOrNull : Json → Bool
  | .obj _ => true
  | .null => true
  | _ => false

/-- A value that a string field accepts: a string or `null`. -/
def isStringOrNull : Json → Bool
  | .str _ => true
  | .null => true
  | _ => false

/-- The string held by a JSON string. -/
def stringOf : Json → Option Str
  | .str s => some s
  | _ => none

/-- What a lookup response body says, read off the document itself: `none` when
the body does not decode (no JSON document, a document that is neither an
object nor `null`, a `data` member that is neither, or a `play` member of a
`data` object that is neither a string nor `null`), otherwise `some v` where
`v` is `data.play`, the last string given for `play` inside the objects given
for `data`, empty when there is none. -/
def responsePlay (body : Option Json) : Option Str :=
  match body with
  | some .null => some []
  | some (.obj members) =>
    let datas := valuesFor "data".toList members
    let plays := valuesFor "play".toList (datas.flatMap objectMembers)
    if datas.all isObjectOrNull && plays.all isStringOrNull then
      some (((plays.filterMap stringOf).getLast?).getD [])
    else none
  | _ => none

/-- Credential number `i` (counting from 0) was tried and failed, `e` being the
failure recorded for it: its request was built and sent after those of the
credentials before it, and the network call failed, or the status was not 200,
or the body did not decode, or `data.play` was empty. -/
def TriedAndFailed (s : tiktokService) (url : Str) (i : Nat) (e : GoError) : Prop :=
  ∃ key, s.rapidApiKeys.get? i = some key ∧
    s.client.NewRequest "GET".toList (apiEndpointOf s url) = none ∧
    (s.client.Do (lookupRequests s url i) (lookupRequest s (apiEndpointOf s url) key) = .error e ∨
     ∃ resp,
      s.client.Do (lookupRequests s url i) (lookupRequest s (apiEndpointOf s url) key) = .ok resp ∧
      ((resp.StatusCode ≠ 200 ∧ e = .ErrorfD "HTTP status %d" resp.StatusCode) ∨
       (resp.StatusCode = 200 ∧ responsePlay resp.Body = none ∧ e = .lib "json: decode") ∨
       (resp.StatusCode = 200 ∧ responsePlay resp.Body = some [] ∧
          e = .New "missing data.play in response")))

/-- Result of the loop iteration for credential number `i` when the requests
of the credentials before it went out. -/
def outcomeAt (s : tiktokService) (url : Str) (i : Nat) : Except GoError Str :=
  (tryKey s (apiEndpointOf s url) (lookupRequests s url i) (s.rapidApiKeys.getD i [])).1

/-- The requests sent once the loop has gone through the first `n` credentials
without returning. -/
def sentAfter (s : tiktokService) (url : Str) (n : Nat) : List HttpRequest :=
  match s.client.NewRequest "GET".toList (apiEndpointOf s url) with
  | none => lookupRequests s url n
  | some _ => []

/-- The error part of a result. -/
def errOf (r : Except GoError Str) : Option GoError :=
  match r with
  | .error e => some e
  | .ok _ => none

/-- Upper-case hexadecimal digit. -/
def hexDigit (n : Nat) : Char :=
  if n < 10 then Char.ofNat (48 + n) else Char.ofNat (55 + n)

/-- Percent-encoding of a string as a URL query component (the `enc` of the
specification): letters, digits, `-`, `_`, `.` and `~` stand for themselves,
every other character is replaced by `%XX` for each byte of its UTF-8 form.
The source calls no such function. -/
def percentEncode (u : Str) : Str :=
  u.flatMap fun c =>
    if c.isAlphanum || c = '-' || c = '_' || c = '.' || c = '~' then [c]
    else (String.utf8EncodeChar c).flatMap fun b =>
      ['%', hexDigit (b.toNat / 16), hexDigit (b.toNat % 16)]

/-- Removal of one trailing `/`, when there is one. -/
def stripSlash (b : Str) : Str :=
  if b.getLast? = some '/' then b.dropLast else b

/-- The gateway endpoint for base URL `b` and session `sessionId`. -/
def mediaEndpoint (b sessionId : Str) : Str :=
  stripSlash b ++ "/api/whatsapp/session/".toList ++ sessionId ++ "/send-media".toList

/-- A client that accepts every URL and answers with status 200 and the given
document, recording nothing else. -/
def echoClient (doc : Option Json) : Client :=
  { NewRequest := fun _ _ => none
    Do := fun _ _ => .ok { StatusCode := 200, Body := doc } }

/-- The document `{"data": {"play": v}}`. -/
def playJson (v : Str) : Json := .obj [("data".toList, .obj [("play".toList, .str v)])]

/-- A client that accepts every URL, answers the third request sent with
status 200 and `{"data": {"play": "https://cdn.example/v.mp4"}}`, and every
other request with status 429 and no document. -/
def thirdTimeClient : Client :=
  { NewRequest := fun _ _ => none
    Do := fun sent _ =>
      if sent.length = 2 then
        .ok { StatusCode := 200, Body := some (playJson "https://cdn.example/v.mp4".toList) }
      else .ok { StatusCode := 429, Body := none } }

/-- A resolver with three credentials on `thirdTimeClient`. -/
def threeKeys : tiktokService :=
  { client := thirdTimeClient
    rapidApiHost := "api.example".toList
    rapidApiKeys := ["k1".toList, " k2".toList, "k3 ".toList] }

/-- A client whose request builder refuses a URL holding a space (as the URL
parser does for a space in the host) and which would answer any request with
status 200 and a media URL. -/
def strictClient : Client :=
  { NewRequest := fun _ url =>
      if url.contains ' ' then some (.lib "invalid character in host name") else none
    Do := fun _ _ =>
      .ok { StatusCode := 200, Body := some (playJson "https://cdn.example/v.mp4".toList) } }

/-- A resolver configured with a host that holds a space. -/
def badHost : tiktokService :=
  { client := strictClient
    rapidApiHost := "bad host".toList
    rapidApiKeys := ["k1".toList] }

/-- A client that accepts every URL and answers the first request with a
network error, the second with status 429, the third with status 200 and an
empty `data.play`, and every later one with status 200 and a `data.play` that
is a number. -/
def failingClient : Client :=
  { NewRequest := fun _ _ => none
    Do := fun sent _ =>
      match sent.length with
      | 0 => .error (.lib "dial tcp: i/o timeout")
      | 1 => .ok { StatusCode := 429, Body := none }
      | 2 => .ok { StatusCode := 200, Body := some (playJson []) }
      | _ => .ok { StatusCode := 200,
                   Body := some (.obj [("data".toList, .obj [("play".toList, .num "7".toList)])]) } }

/-- A resolver with four credentials on `failingClient`. -/
def fourBadKeys : tiktokService :=
  { client := failingClient
    rapidApiHost := "api.example".toList
    rapidApiKeys := ["k1".toList, "k2".toList, "k3".toList, "k4".toList] }

/-- A relay on a client that accepts every URL and answers with status 200. -/
def demoRelay (apiURL sessionId : Str) : whatsappService :=
  { client := echoClient none, apiURL := apiURL, apiKey := [], sessionId := sessionId }

/-- Some substring of `content` matches `re`. -/
def HasMatch (re : Regex) (content : Str) : Prop :=
  ∃ pre m post, content = pre ++ m ++ post ∧ Matches re m

/-- The string `u` is the leftmost match of `re` in `content`: it occurs in
`content`, it matches, no match starts before it, and no match starting where
it starts is longer. -/
def IsLeftmostMatch (re : Regex) (content u : Str) : Prop :=
  ∃ pre post, content = pre ++ u ++ post ∧ Matches re u ∧
    ∀ pre1 m1 post1, content = pre1 ++ m1 ++ post1 → Matches re m1 →
      pre.length ≤ pre1.length ∧ (pre1.length = pre.length → m1.length ≤ u.length)

/-- The part of `tiktokRegex` before the path. -/
def tiktokHead : Regex :=
  .seq (Regex.lits "http".toList) <|
  .seq (.opt (.lit 's')) <|
  .seq (Regex.lits "://".toList) <|
  .seq (.opt (.alt (Regex.lits "www.".toList) (Regex.lits "vt.".toList))) <|
  Regex.lits "tiktok.com/".toList

/-- The six strings matched by `tiktokHead`. -/
def tiktokHeads : List Str :=
  ["http://tiktok.com/".toList, "http://www.tiktok.com/".toList, "http://vt.tiktok.com/".toList,
   "https://tiktok.com/".toList, "https://www.tiktok.com/".toList, "https://vt.tiktok.com/".toList]

/-! ## Theorems -/

theorem Contains_iff (s substr : Str) : Contains s substr = true ↔ substr <:+: s := by
  induction s with
  | nil =>
    cases substr <;> simp [Contains]
  | cons c t ih =>
    simp only [Contains, Bool.or_eq_true, ih, List.isPrefixOf_iff_prefix, List.infix_cons_iff]

/-- C1: whatever the method, the body, the configured session and the behaviour
of the two services, `HandleWebhook` leaves on a fresh response writer exactly
the status 200 and the body `OK`. -/
theorem HandleWebhook_response_always_OK (h : WebhookHandler) (SESSION_ID : Str) (r : Request) :
    (HandleWebhook h SESSION_ID {} r).response = { status := some 200, body := "OK".toList } := by
  simp only [HandleWebhook]
  repeat' split
  all_goals rfl

/-- C4 fails as stated: for the payload with empty `sessionId`, content `hi`
and sender `62@s`, the single-wrapper form normalises to the all-empty message,
not to the payload's three strings. -/
theorem wrapperForm_empty_session_lost :
    (normalizePayload (some (wrapperForm (payloadJson [] "hi".toList "62@s".toList)))).map canonical
        = some ([], [], []) ∧
      (normalizePayload (some (wrapperForm (payloadJson [] "hi".toList "62@s".toList)))).map canonical
        ≠ some ([], "hi".toList, "62@s".toList) := by
  decide

/-- C4, amended: the array-of-wrapper form and the direct form of every payload
normalise to its three strings; the single-wrapper form does so when the
payload's `sessionId` is not empty, and normalises to the all-empty message
when it is. -/
theorem normalizePayload_three_forms (sessionId content senderPn : Str) :
    (normalizePayload (some (arrayForm (payloadJson sessionId content senderPn)))).map canonical
        = some (sessionId, content, senderPn) ∧
      (normalizePayload (some (payloadJson sessionId content senderPn))).map canonical
        = some (sessionId, content, senderPn) ∧
      (sessionId ≠ [] →
        (normalizePayload (some (wrapperForm (payloadJson sessionId content senderPn)))).map canonical
          = some (sessionId, content, senderPn)) ∧
      (sessionId = [] →
        (normalizePayload (some (wrapperForm (payloadJson sessionId content senderPn)))).map canonical
          = some ([], [], [])) := by
  refine ⟨rfl, rfl, ?_, ?_⟩
  · intro hs
    cases sessionId with
    | nil => exact absurd rfl hs
    | cons a t => rfl
  · intro hs
    subst hs
    rfl

theorem normalizePayload_three_forms_witness :
    (normalizePayload (some (wrapperForm (payloadJson "abc".toList "hi".toList "62@s".toList)))).map
        canonical = some ("abc".toList, "hi".toList, "62@s".toList) ∧
      (normalizePayload (some (wrapperForm (payloadJson [] "hi".toList "62@s".toList)))).map
        canonical = some ([], [], []) :=
  ⟨(normalizePayload_three_forms "abc".toList "hi".toList "62@s".toList).2.2.1 (by decide),
   (normalizePayload_three_forms [] "hi".toList "62@s".toList).2.2.2 rfl⟩

/-- C5: for a message that normalised to `p` and an expected session `e`, the
run ends at the session-mismatch exit exactly when `e` is not empty and
`p.SessionId` differs from `e`; such a run searched no link and called no
service; with `e` empty no run ends there. -/
theorem session_rule (h : WebhookHandler) (e : Str) (w : ResponseWriter) (doc : Option Json)
    (p : WebhookPayload) (hn : normalizePayload doc = some p) :
    ((HandleWebhook h e w (postOf doc)).stage = .sessionMismatch ↔ (e ≠ [] ∧ p.SessionId ≠ e)) ∧
      ((HandleWebhook h e w (postOf doc)).stage = .sessionMismatch →
        (HandleWebhook h e w (postOf doc)).targetURL = none ∧
        (HandleWebhook h e w (postOf doc)).calls = []) ∧
      (e = [] → (HandleWebhook h e w (postOf doc)).stage ≠ .sessionMismatch) := by
  have key : (HandleWebhook h e w (postOf doc)).stage = .sessionMismatch ↔
      (e ≠ [] ∧ p.SessionId ≠ e) := by
    unfold HandleWebhook
    simp only [postOf, hn, bne_self_eq_false, Bool.false_eq_true, if_false]
    by_cases hc : (e != [] && p.SessionId != e) = true
    · simp only [hc, if_true, true_iff]
      simpa using hc
    · simp only [hc, if_false]
      have hc2 : ¬ (e ≠ [] ∧ p.SessionId ≠ e) := by simpa using hc
      simp only [hc2, iff_false]
      repeat' split
      all_goals simp_all
  refine ⟨key, ?_, ?_⟩
  · intro hst
    have hc : (e != [] && p.SessionId != e) = true := by simpa using key.mp hst
    unfold HandleWebhook
    simp only [postOf, hn, bne_self_eq_false, Bool.false_eq_true, if_false, hc, if_true, and_self]
  · intro he hst
    exact (key.mp hst).1 he

theorem session_rule_witness :
    ((HandleWebhook ⟨fun _ => .ok "m".toList, fun _ _ _ => none⟩ "abc".toList {}
        (postOf (some (payloadJson "xyz".toList "https://tiktok.com/a".toList "62@s".toList)))).stage
        = .sessionMismatch ↔ ("abc".toList ≠ [] ∧ "xyz".toList ≠ "abc".toList)) ∧
      (HandleWebhook ⟨fun _ => .ok "m".toList, fun _ _ _ => none⟩ "abc".toList {}
        (postOf (some (payloadJson "xyz".toList "https://tiktok.com/a".toList "62@s".toList)))).stage
        = .sessionMismatch :=
  ⟨(session_rule ⟨fun _ => .ok "m".toList, fun _ _ _ => none⟩ "abc".toList {}
      (some (payloadJson "xyz".toList "https://tiktok.com/a".toList "62@s".toList))
      { SessionId := "xyz".toList,
        Data := { Content := "https://tiktok.com/a".toList,
                  FullMessage := { Key := { SenderPn := "62@s".toList } } } }
      rfl).1, by decide⟩

/-- C6: a message whose content does not contain `https://` is rejected (at
the session exit or at the link pre-filter exit) and no service is called,
whatever its `sessionId` and the expected session. -/
theorem no_https_no_calls (h : WebhookHandler) (e : Str) (w : ResponseWriter) (doc : Option Json)
    (p : WebhookPayload) (hn : normalizePayload doc = some p)
    (hc : ¬ ("https://".toList <:+: p.Data.Content)) :
    ((HandleWebhook h e w (postOf doc)).stage = .sessionMismatch ∨
        (HandleWebhook h e w (postOf doc)).stage = .noHttpsLink) ∧
      (HandleWebhook h e w (postOf doc)).targetURL = none ∧
      (HandleWebhook h e w (postOf doc)).calls = [] := by
  have hc2 : Contains p.Data.Content "https://".toList = false := by
    rw [← Bool.not_eq_true, Contains_iff]
    exact hc
  simp only [HandleWebhook, postOf, hn, bne_self_eq_false, Bool.false_eq_true, if_false, hc2,
    Bool.not_false, if_true]
  split <;> simp

theorem no_https_no_calls_witness :
    FindString tiktokRegex "see http://tiktok.com/abc".toList = "http://tiktok.com/abc".toList ∧
      (HandleWebhook ⟨fun _ => .ok "m".toList, fun _ _ _ => none⟩ "abc".toList {}
        (postOf (some (payloadJson "abc".toList "see http://tiktok.com/abc".toList
          "62@s".toList)))).calls = [] :=
  ⟨by decide,
   (no_https_no_calls ⟨fun _ => .ok "m".toList, fun _ _ _ => none⟩ "abc".toList {}
      (some (payloadJson "abc".toList "see http://tiktok.com/abc".toList "62@s".toList))
      { SessionId := "abc".toList,
        Data := { Content := "see http://tiktok.com/abc".toList,
                  FullMessage := { Key := { SenderPn := "62@s".toList } } } }
      rfl (by decide)).2.2⟩

/-- C8: when the message normalised to `p`, passes the session rule and the
`https://` pre-filter, the pattern search yields a non-empty link `u`, the
sender `s` is not empty and `FetchVideo u` returns the media URL `m`, the
handler calls `FetchVideo` once with `u`, then `SendMedia` once with recipient
`s`, media URL `m` and caption `ini bosque, video dari: ` followed by `u`, and
nothing else; when `SendMedia` returns nil the run completes. -/
theorem resolve_then_relay (h : WebhookHandler) (e : Str) (w : ResponseWriter)
    (doc : Option Json) (p : WebhookPayload) (u m : Str)
    (hn : normalizePayload doc = some p)
    (hs : e = [] ∨ p.SessionId = e)
    (hc : "https://".toList <:+: p.Data.Content)
    (hu : FindString tiktokRegex p.Data.Content = u) (hu0 : u ≠ [])
    (hsender : p.Data.FullMessage.Key.SenderPn ≠ [])
    (hf : h.tiktokService u = .ok m) :
    (HandleWebhook h e w (postOf doc)).calls =
        [.FetchVideo u,
         .SendMedia p.Data.FullMessage.Key.SenderPn m ("ini bosque, video dari: ".toList ++ u)] ∧
      (h.whatsappService p.Data.FullMessage.Key.SenderPn m
          ("ini bosque, video dari: ".toList ++ u) = none →
        (HandleWebhook h e w (postOf doc)).stage = .completed) ∧
      u <:+: ("ini bosque, video dari: ".toList ++ u) := by
  have hc2 : Contains p.Data.Content "https://".toList = true := (Contains_iff _ _).mpr hc
  have hs2 : (e != [] && p.SessionId != e) = false := by
    rcases hs with hs | hs
    · simp [hs]
    · simp [hs]
  have hu1 : (u == []) = false := by simpa using hu0
  have hs3 : (p.Data.FullMessage.Key.SenderPn == []) = false := by simpa using hsender
  simp only [HandleWebhook, postOf, hn, bne_self_eq_false, Bool.false_eq_true, if_false, hc2,
    Bool.not_true, hs2, hu, hu1, hf, hs3]
  refine ⟨?_, ?_, ?_⟩
  · split <;> rfl
  · intro hw
    simp only [hw]
  · exact ⟨"ini bosque, video dari: ".toList, [], by simp⟩

theorem resolve_then_relay_witness :
    (HandleWebhook ⟨fun _ => .ok "https://cdn.example/v.mp4".toList, fun _ _ _ => none⟩
        "abc".toList {}
        (postOf (some (payloadJson "abc".toList "check https://vt.tiktok.com/ZS123/".toList
          "6281000000@s.whatsapp.net".toList)))).calls =
      [.FetchVideo "https://vt.tiktok.com/ZS123/".toList,
       .SendMedia "6281000000@s.whatsapp.net".toList "https://cdn.example/v.mp4".toList
         ("ini bosque, video dari: ".toList ++ "https://vt.tiktok.com/ZS123/".toList)] :=
  (resolve_then_relay ⟨fun _ => .ok "https://cdn.example/v.mp4".toList, fun _ _ _ => none⟩
      "abc".toList {}
      (some (payloadJson "abc".toList "check https://vt.tiktok.com/ZS123/".toList
        "6281000000@s.whatsapp.net".toList))
      { SessionId := "abc".toList,
        Data := { Content := "check https://vt.tiktok.com/ZS123/".toList,
                  FullMessage := { Key := { SenderPn := "6281000000@s.whatsapp.net".toList } } } }
      "https://vt.tiktok.com/ZS123/".toList "https://cdn.example/v.mp4".toList
      rfl (Or.inr rfl) (by decide) (by decide) (by decide) (by decide) rfl).1

theorem tryKey_fst_history (s : tiktokService) (url : Str) (i : Nat) (key : Str) :
    tryKey s (apiEndpointOf s url) (sentAfter s url i) key
      = ((tryKey s (apiEndpointOf s url) (lookupRequests s url i) key).1,
         match s.client.NewRequest "GET".toList (apiEndpointOf s url) with
         | none => lookupRequests s url i ++ [lookupRequest s (apiEndpointOf s url) key]
         | some _ => []) := by
  unfold tryKey sentAfter
  cases hreq : s.client.NewRequest "GET".toList (apiEndpointOf s url) with
  | some err => rfl
  | none =>
    simp only
    repeat' split
    all_goals rfl

theorem getElem?_middle {α : Type} (done rest : List α) (key : α) :
    (done ++ key :: rest)[done.length]? = some key := by
  rw [List.getElem?_append_right (le_refl _)]
  simp

theorem lookupRequests_succ (s : tiktokService) (url : Str) (done rest : List Str) (key : Str)
    (hk : s.rapidApiKeys = done ++ key :: rest) :
    lookupRequests s url (done.length + 1)
      = lookupRequests s url done.length ++ [lookupRequest s (apiEndpointOf s url) key] := by
  unfold lookupRequests
  rw [hk, List.take_succ, getElem?_middle]
  simp

theorem tryKey_step (s : tiktokService) (url : Str) (done rest : List Str) (key : Str)
    (hk : s.rapidApiKeys = done ++ key :: rest) :
    tryKey s (apiEndpointOf s url) (sentAfter s url done.length) key
      = (outcomeAt s url done.length, sentAfter s url (done.length + 1)) := by
  rw [tryKey_fst_history]
  have hget : s.rapidApiKeys.getD done.length [] = key := by
    rw [hk, List.getD_eq_getElem?_getD, getElem?_middle]
    rfl
  unfold outcomeAt sentAfter
  rw [hget, lookupRequests_succ s url done rest key hk]

theorem fetchLoop_spec (s : tiktokService) (url : Str) :
    ∀ (rest done : List Str) (lastErr : Option GoError), s.rapidApiKeys = done ++ rest →
      ((∀ j, done.length ≤ j → j < s.rapidApiKeys.length → ∃ e, outcomeAt s url j = .error e) →
        fetchLoop s (apiEndpointOf s url) rest lastErr (sentAfter s url done.length)
          = (.error (Errorf "all API keys failed. Last error: %w"
                (if rest = [] then lastErr
                 else errOf (outcomeAt s url (s.rapidApiKeys.length - 1)))),
             sentAfter s url s.rapidApiKeys.length)) ∧
      (∀ k v, done.length ≤ k → k < s.rapidApiKeys.length →
        (∀ j, done.length ≤ j → j < k → ∃ e, outcomeAt s url j = .error e) →
        outcomeAt s url k = .ok v →
        fetchLoop s (apiEndpointOf s url) rest lastErr (sentAfter s url done.length)
          = (.ok v, sentAfter s url (k + 1))) := by
  intro rest
  induction rest with
  | nil =>
    intro done lastErr hk
    have hN : s.rapidApiKeys.length = done.length := by rw [hk]; simp
    constructor
    · intro _
      simp [fetchLoop, hN]
    · intro k v h1 h2
      omega
  | cons key rest ih =>
    intro done lastErr hk
    have hstep := tryKey_step s url done rest key hk
    have hk2 : s.rapidApiKeys = (done ++ [key]) ++ rest := by simp [hk]
    have hlen : (done ++ [key]).length = done.length + 1 := by simp
    have hN : s.rapidApiKeys.length = done.length + 1 + rest.length := by
      rw [hk]; simp; omega
    constructor
    · intro hall
      obtain ⟨e, he⟩ := hall done.length le_rfl (by omega)
      obtain ⟨ih1, _⟩ := ih (done ++ [key]) (some e) hk2
      rw [hlen] at ih1
      have h2 := ih1 (fun j hj hjN => hall j (by omega) hjN)
      rw [fetchLoop, hstep, he]
      simp only [h2, reduceCtorEq, if_false]
      by_cases hr : rest = []
      · have hlast : s.rapidApiKeys.length - 1 = done.length := by
          rw [hN, hr]; simp
        simp [hr, hlast, he, errOf]
      · simp [hr]
    · intro k v h1 h2 hfail hok
      rcases Nat.eq_or_lt_of_le h1 with hkk | hkk
      · subst hkk
        rw [fetchLoop, hstep, hok]
      · obtain ⟨e, he⟩ := hfail done.length le_rfl hkk
        obtain ⟨_, ih2⟩ := ih (done ++ [key]) (some e) hk2
        rw [hlen] at ih2
        have h3 := ih2 k v (by omega) h2 (fun j hj hjk => hfail j (by omega) hjk) hok
        rw [fetchLoop, hstep, he]
        simp only [h3]

theorem tryKey_ok_iff (s : tiktokService) (ep : Str) (sent : List HttpRequest) (key v : Str) :
    (tryKey s ep sent key).1 = .ok v ↔
      ∃ resp, s.client.NewRequest "GET".toList ep = none ∧
        s.client.Do sent (lookupRequest s ep key) = .ok resp ∧
        resp.StatusCode = 200 ∧
        (Unmarshal decodeTiktokAPIResponse resp.Body {}).2 = true ∧
        (Unmarshal decodeTiktokAPIResponse resp.Body {}).1.Data.Play = v ∧ v ≠ [] := by
  simp only [tryKey]
  cases s.client.NewRequest "GET".toList ep with
  | some err => simp
  | none =>
    cases s.client.Do sent (lookupRequest s ep key) with
    | error err => simp
    | ok resp =>
      by_cases hst : resp.StatusCode = 200
      · cases hdec : (Unmarshal decodeTiktokAPIResponse resp.Body {}).2 with
        | false => simp [hst, hdec]
        | true =>
          by_cases hp : (Unmarshal decodeTiktokAPIResponse resp.Body {}).1.Data.Play = []
          · simp only [hst, hdec, hp]
            simp
            intro _ _ h3
            rw [← h3, hp]
          · simp [hst, hdec, hp]
            intro h
            exact h ▸ hp
      · simp [hst]

theorem tryKey_error_iff (s : tiktokService) (ep : Str) (sent : List HttpRequest) (key : Str)
    (e : GoError) :
    (tryKey s ep sent key).1 = .error e ↔
      (s.client.NewRequest "GET".toList ep = some e ∨
       (s.client.NewRequest "GET".toList ep = none ∧
        (s.client.Do sent (lookupRequest s ep key) = .error e ∨
         ∃ resp,
          s.client.Do sent (lookupRequest s ep key) = .ok resp ∧
          ((resp.StatusCode ≠ 200 ∧ e = .ErrorfD "HTTP status %d" resp.StatusCode) ∨
           (resp.StatusCode = 200 ∧ (Unmarshal decodeTiktokAPIResponse resp.Body {}).2 = false ∧
              e = .lib "json: decode") ∨
           (resp.StatusCode = 200 ∧ (Unmarshal decodeTiktokAPIResponse resp.Body {}).2 = true ∧
              (Unmarshal decodeTiktokAPIResponse resp.Body {}).1.Data.Play = [] ∧
              e = .New "missing data.play in response"))))) := by
  simp only [tryKey]
  cases s.client.NewRequest "GET".toList ep with
  | some err => simp
  | none =>
    cases s.client.Do sent (lookupRequest s ep key) with
    | error err => simp
    | ok resp =>
      by_cases hst : resp.StatusCode = 200
      · cases hdec : (Unmarshal decodeTiktokAPIResponse resp.Body {}).2 with
        | false =>
          simp [hst, hdec]
          exact eq_comm
        | true =>
          by_cases hp : (Unmarshal decodeTiktokAPIResponse resp.Body {}).1.Data.Play = []
          · simp [hst, hdec, hp]
            exact eq_comm
          · simp [hst, hdec, hp]
      · simp [hst]
        exact eq_comm

theorem outcomeAt_ok_iff (s : tiktokService) (url : Str) (i : Nat) (v : Str)
    (hi : i < s.rapidApiKeys.length) :
    outcomeAt s url i = .ok v ↔ SucceedsWith s url i v := by
  have hget : s.rapidApiKeys.get? i = some (s.rapidApiKeys.getD i []) := by
    rw [List.get?_eq_getElem?, List.getD_eq_getElem?_getD, List.getElem?_eq_getElem hi]
    rfl
  unfold outcomeAt SucceedsWith
  rw [tryKey_ok_iff]
  constructor
  · rintro ⟨resp, h⟩
    exact ⟨_, resp, hget, h⟩
  · rintro ⟨key, resp, hkey, h⟩
    have hkk : s.rapidApiKeys.getD i [] = key := by
      rw [hget] at hkey
      exact Option.some.inj hkey
    rw [hkk]
    exact ⟨resp, h⟩

theorem FetchVideo_cases (s : tiktokService) (url : Str) (hhost : s.rapidApiHost ≠ [])
    (hkeys : s.rapidApiKeys ≠ []) :
    (∃ k v, k < s.rapidApiKeys.length ∧ outcomeAt s url k = .ok v ∧
        (∀ j, j < k → ∃ e, outcomeAt s url j = .error e) ∧
        FetchVideo s url = (.ok v, sentAfter s url (k + 1))) ∨
      ((∀ j, j < s.rapidApiKeys.length → ∃ e, outcomeAt s url j = .error e) ∧
        FetchVideo s url
          = (.error (Errorf "all API keys failed. Last error: %w"
              (errOf (outcomeAt s url (s.rapidApiKeys.length - 1)))),
             sentAfter s url s.rapidApiKeys.length)) := by
  have hN : s.rapidApiKeys.length ≠ 0 := by
    intro h
    exact hkeys (List.length_eq_zero.mp h)
  have hsent0 : sentAfter s url 0 = [] := by
    unfold sentAfter lookupRequests
    cases s.client.NewRequest "GET".toList (apiEndpointOf s url) <;> rfl
  have hunfold : FetchVideo s url
      = fetchLoop s (apiEndpointOf s url) s.rapidApiKeys none (sentAfter s url 0) := by
    rw [hsent0]
    unfold FetchVideo apiEndpointOf
    have h1 : (s.rapidApiHost == []) = false := by simpa using hhost
    have h2 : (s.rapidApiKeys.length == 0) = false := by simpa using hN
    simp only [h1, h2, Bool.false_eq_true, if_false]
  obtain ⟨hfail, hsucc⟩ := fetchLoop_spec s url s.rapidApiKeys [] none (by simp)
  simp only [List.length_nil] at hsucc
  have notOk : ∀ j, (¬ ∃ v, outcomeAt s url j = .ok v) → ∃ e, outcomeAt s url j = .error e := by
    intro j hj
    cases hc : outcomeAt s url j with
    | error e => exact ⟨e, rfl⟩
    | ok v => exact absurd ⟨v, hc⟩ hj
  by_cases hex : ∃ k, k < s.rapidApiKeys.length ∧ ∃ v, outcomeAt s url k = .ok v
  · left
    classical
    have hk := Nat.find_spec hex
    obtain ⟨hkN, v, hv⟩ := hk
    have hmin : ∀ j, j < Nat.find hex → ∃ e, outcomeAt s url j = .error e := by
      intro j hj
      apply notOk
      intro hjv
      exact Nat.find_min hex hj ⟨by omega, hjv⟩
    refine ⟨Nat.find hex, v, hkN, hv, hmin, ?_⟩
    rw [hunfold]
    exact hsucc (Nat.find hex) v (Nat.zero_le _) hkN (fun j _ hj => hmin j hj) hv
  · right
    have hall : ∀ j, j < s.rapidApiKeys.length → ∃ e, outcomeAt s url j = .error e := by
      intro j hj
      apply notOk
      intro hjv
      exact hex ⟨j, hj, hjv⟩
    refine ⟨hall, ?_⟩
    rw [hunfold]
    have h3 := hfail (fun j _ hj => hall j hj)
    simp only [List.length_nil, hkeys, if_false] at h3
    exact h3

/-- C2: with a host configured, if credential number `k` (from 0) is the first
whose request is answered with status 200 and a decodable body holding a
non-empty `data.play`, then `FetchVideo` returns that value and has sent
exactly the requests of the first `k + 1` credentials, in configured order, and
none for a later credential. -/
theorem FetchVideo_first_success (s : tiktokService) (url : Str) (k : Nat) (v : Str)
    (hhost : s.rapidApiHost ≠ [])
    (hok : SucceedsWith s url k v)
    (hfirst : ∀ j, j < k → ¬ ∃ v1, SucceedsWith s url j v1) :
    FetchVideo s url = (.ok v, lookupRequests s url (k + 1)) ∧
      (lookupRequests s url (k + 1)).length = k + 1 ∧
      (lookupRequests s url (k + 1)).map (fun r => r.Header)
        = (s.rapidApiKeys.take (k + 1)).map fun key =>
            [("X-RapidAPI-Host".toList, s.rapidApiHost),
             ("X-RapidAPI-Key".toList, TrimSpace key)] := by
  have hkN : k < s.rapidApiKeys.length := by
    obtain ⟨key, _, hkey, _⟩ := hok
    rw [List.get?_eq_getElem?] at hkey
    exact (List.getElem?_eq_some_iff.mp hkey).1
  have hkeys : s.rapidApiKeys ≠ [] := by
    intro h
    rw [h] at hkN
    exact Nat.not_lt_zero _ hkN
  have hreq : s.client.NewRequest "GET".toList (apiEndpointOf s url) = none := by
    obtain ⟨_, _, _, h, _⟩ := hok
    exact h
  have hsent : ∀ n, sentAfter s url n = lookupRequests s url n := by
    intro n
    unfold sentAfter
    rw [hreq]
  have hokk : outcomeAt s url k = .ok v := (outcomeAt_ok_iff s url k v hkN).mpr hok
  refine ⟨?_, ?_, ?_⟩
  · rcases FetchVideo_cases s url hhost hkeys with ⟨k1, v1, hk1, hv1, hmin, hres⟩ | ⟨hall, _⟩
    · have hkk : k1 = k := by
        rcases Nat.lt_trichotomy k1 k with hlt | heq | hgt
        · exact absurd ⟨v1, (outcomeAt_ok_iff s url k1 v1 hk1).mp hv1⟩ (hfirst k1 hlt)
        · exact heq
        · obtain ⟨e, he⟩ := hmin k hgt
          rw [hokk] at he
          cases he
      subst hkk
      rw [hokk] at hv1
      cases hv1
      rw [hres, hsent]
    · obtain ⟨e, he⟩ := hall k hkN
      rw [hokk] at he
      cases he
  · unfold lookupRequests
    rw [List.length_map, List.length_take]
    omega
  · unfold lookupRequests lookupRequest
    rw [List.map_map]
    rfl

theorem FetchVideo_first_success_witness :
    FetchVideo threeKeys "https://vt.tiktok.com/ZS123/".toList
        = (.ok "https://cdn.example/v.mp4".toList,
           lookupRequests threeKeys "https://vt.tiktok.com/ZS123/".toList 3) ∧
      (lookupRequests threeKeys "https://vt.tiktok.com/ZS123/".toList 3).length = 3 := by
  have h := FetchVideo_first_success threeKeys "https://vt.tiktok.com/ZS123/".toList 2
    "https://cdn.example/v.mp4".toList (by decide)
    ⟨"k3 ".toList, { StatusCode := 200, Body := some (playJson "https://cdn.example/v.mp4".toList) },
      rfl, rfl, rfl, rfl, rfl, rfl, by decide⟩
    (by
      rintro j hj ⟨v1, key, resp, _, _, hdo, hst, _⟩
      have hlen : (lookupRequests threeKeys "https://vt.tiktok.com/ZS123/".toList j).length ≠ 2 := by
        unfold lookupRequests
        rw [List.length_map, List.length_take]
        omega
      simp only [threeKeys, thirdTimeClient] at hdo hlen
      rw [if_neg hlen] at hdo
      cases hdo
      exact absurd hst (by decide))
  exact ⟨h.1, h.2.1⟩

theorem findField_single (name key : Str) :
    findField [name] key = if addresses name key then some 0 else none := by
  unfold findField addresses
  by_cases h1 : key = name
  · subst h1
    simp [List.indexOf?, List.findIdx?]
  · have h2 : (name == key) = false := by
      simp only [beq_eq_false_iff_ne, ne_eq]
      exact fun h => h1 h.symm
    by_cases h3 : foldName key = foldName name
    · simp [List.indexOf?, List.findIdx?, h2, h1, h3]
    · have h4 : (foldName name == foldName key) = false := by
        simp only [beq_eq_false_iff_ne, ne_eq]
        exact fun h => h3 h.symm
      simp [List.indexOf?, List.findIdx?, h2, h1, h3, h4]

theorem foldl_single {α : Type} (name : Str) (setField : Nat → Json → α → α × Bool) :
    ∀ (members : List (Str × Json)) (acc : α × Bool),
      members.foldl
        (fun acc kv =>
          match findField [name] kv.1 with
          | none => acc
          | some i =>
            let r := setField i kv.2 acc.1
            (r.1, acc.2 || r.2))
        acc
      = (valuesFor name members).foldl
          (fun acc v => ((setField 0 v acc.1).1, acc.2 || (setField 0 v acc.1).2)) acc := by
  intro members
  induction members with
  | nil => intro acc; rfl
  | cons kv t ih =>
    intro acc
    rw [List.foldl_cons, ih]
    unfold valuesFor
    rw [findField_single]
    by_cases h : addresses name kv.1 = true
    · simp [h, List.filter_cons]
    · simp [h, List.filter_cons]

theorem getLast?_getD_cons (a : Str) (l : List Str) (d : Str) :
    ((a :: l).getLast?).getD d = (l.getLast?).getD a := by
  cases l with
  | nil => rfl
  | cons b t =>
    rw [List.getLast?_cons_cons]
    cases h : (b :: t).getLast? with
    | none => exact absurd (List.getLast?_eq_none_iff.mp h) (List.cons_ne_nil b t)
    | some c => rfl

theorem decodeStruct_obj {α : Type} (names : List Str) (setField : Nat → Json → α → α × Bool)
    (members : List (Str × Json)) (cur : α) :
    decodeStruct names setField (.obj members) cur
      = members.foldl
          (fun acc kv =>
            match findField names kv.1 with
            | none => acc
            | some i =>
              let r := setField i kv.2 acc.1
              (r.1, acc.2 || r.2))
          (cur, false) := rfl

theorem decodeStruct_single {α : Type} (name : Str) (setField : Nat → Json → α → α × Bool)
    (members : List (Str × Json)) (cur : α) :
    decodeStruct [name] setField (.obj members) cur
      = (valuesFor name members).foldl
          (fun acc v => ((setField 0 v acc.1).1, acc.2 || (setField 0 v acc.1).2)) (cur, false) := by
  rw [decodeStruct_obj]
  exact foldl_single name setField members (cur, false)

theorem bool_shuffle : ∀ e p1 t p2 : Bool,
    ((e || !p1) || !(t && p2)) = (e || !(t && (p1 && p2))) := by
  decide

theorem foldl_play :
    ∀ (vals : List Json) (x : tiktokAPIData) (e : Bool),
      vals.foldl
        (fun (acc : tiktokAPIData × Bool) v =>
          (({ acc.1 with Play := (decodeString v acc.1.Play).1 } : tiktokAPIData),
            acc.2 || (decodeString v acc.1.Play).2))
        (x, e)
      = ({ Play := ((vals.filterMap stringOf).getLast?).getD x.Play },
         e || !vals.all isStringOrNull) := by
  intro vals
  induction vals with
  | nil => intro x e; simp
  | cons v t ih =>
    intro x e
    rw [List.foldl_cons, ih]
    cases v <;>
      simp [decodeString, stringOf, isStringOrNull, getLast?_getD_cons, List.filterMap_cons]

theorem decodeTiktokAPIData_obj (ms : List (Str × Json)) (x : tiktokAPIData) :
    decodeTiktokAPIData (.obj ms) x
      = ({ Play := (((valuesFor "play".toList ms).filterMap stringOf).getLast?).getD x.Play },
         !(valuesFor "play".toList ms).all isStringOrNull) := by
  unfold decodeTiktokAPIData
  rw [decodeStruct_single]
  exact foldl_play (valuesFor "play".toList ms) x false

theorem getD_or (a b : Option Str) (d : Str) : (a.or b).getD d = a.getD (b.getD d) := by
  cases a <;> rfl

theorem foldl_data :
    ∀ (vals : List Json) (x : tiktokAPIResponse) (e : Bool),
      vals.foldl
        (fun (acc : tiktokAPIResponse × Bool) v =>
          (({ acc.1 with Data := (decodeTiktokAPIData v acc.1.Data).1 } : tiktokAPIResponse),
            acc.2 || (decodeTiktokAPIData v acc.1.Data).2))
        (x, e)
      = ({ Data := { Play := (((valuesFor "play".toList (vals.flatMap objectMembers)).filterMap
              stringOf).getLast?).getD x.Data.Play } },
         e || !(vals.all isObjectOrNull &&
            (valuesFor "play".toList (vals.flatMap objectMembers)).all isStringOrNull)) := by
  intro vals
  induction vals with
  | nil => intro x e; simp [valuesFor]
  | cons v t ih =>
    intro x e
    rw [List.foldl_cons, ih]
    cases v with
    | obj ms =>
      rw [decodeTiktokAPIData_obj]
      simp only [List.flatMap_cons, objectMembers, valuesFor, List.filter_append, List.map_append,
        List.filterMap_append, List.getLast?_append, getD_or, List.all_append, List.all_cons,
        isObjectOrNull, Bool.true_and]
      congr 1
      exact bool_shuffle _ _ _ _
    | null =>
      simp [decodeTiktokAPIData, decodeStruct, objectMembers, isObjectOrNull]
    | bool b =>
      simp [decodeTiktokAPIData, decodeStruct, objectMembers, isObjectOrNull]
    | num n =>
      simp [decodeTiktokAPIData, decodeStruct, objectMembers, isObjectOrNull]
    | str n =>
      simp [decodeTiktokAPIData, decodeStruct, objectMembers, isObjectOrNull]
    | arr n =>
      simp [decodeTiktokAPIData, decodeStruct, objectMembers, isObjectOrNull]

theorem decodeTiktokAPIResponse_obj (members : List (Str × Json)) :
    decodeTiktokAPIResponse (.obj members) {}
      = ({ Data := { Play := (((valuesFor "play".toList
              ((valuesFor "data".toList members).flatMap objectMembers)).filterMap
              stringOf).getLast?).getD [] } },
         !((valuesFor "data".toList members).all isObjectOrNull &&
            (valuesFor "play".toList
              ((valuesFor "data".toList members).flatMap objectMembers)).all isStringOrNull)) := by
  unfold decodeTiktokAPIResponse
  rw [decodeStruct_single]
  exact foldl_data (valuesFor "data".toList members) {} false

theorem responsePlay_eq (body : Option Json) :
    responsePlay body
      = if (Unmarshal decodeTiktokAPIResponse body {}).2 then
          some (Unmarshal decodeTiktokAPIResponse body {}).1.Data.Play
        else none := by
  cases body with
  | none => rfl
  | some j =>
    cases j with
    | obj members =>
      unfold responsePlay Unmarshal
      simp only [decodeTiktokAPIResponse_obj, Bool.not_not]
    | null => rfl
    | bool b => rfl
    | num n => rfl
    | str n => rfl
    | arr n => rfl
theorem responsePlay_none_iff (body : Option Json) :
    responsePlay body = none ↔ (Unmarshal decodeTiktokAPIResponse body {}).2 = false := by
  rw [responsePlay_eq]
  cases (Unmarshal decodeTiktokAPIResponse body {}).2 <;> simp

theorem responsePlay_some_iff (body : Option Json) (v : Str) :
    responsePlay body = some v ↔
      (Unmarshal decodeTiktokAPIResponse body {}).2 = true ∧
        (Unmarshal decodeTiktokAPIResponse body {}).1.Data.Play = v := by
  rw [responsePlay_eq]
  cases (Unmarshal decodeTiktokAPIResponse body {}).2 <;> simp

theorem outcomeAt_error_iff (s : tiktokService) (url : Str) (i : Nat) (e : GoError)
    (hreq : s.client.NewRequest "GET".toList (apiEndpointOf s url) = none)
    (hi : i < s.rapidApiKeys.length) :
    outcomeAt s url i = .error e ↔ TriedAndFailed s url i e := by
  have hget : s.rapidApiKeys.get? i = some (s.rapidApiKeys.getD i []) := by
    rw [List.get?_eq_getElem?, List.getD_eq_getElem?_getD, List.getElem?_eq_getElem hi]
    rfl
  have hiff := tryKey_error_iff s (apiEndpointOf s url) (lookupRequests s url i)
    (s.rapidApiKeys.getD i []) e
  rw [hreq] at hiff
  simp only [reduceCtorEq, false_or, true_and] at hiff
  unfold outcomeAt TriedAndFailed
  rw [hiff]
  simp only [responsePlay_none_iff, responsePlay_some_iff]
  constructor
  · intro h
    refine ⟨_, hget, hreq, ?_⟩
    rcases h with h | ⟨resp, hdo, h⟩
    · exact Or.inl h
    · refine Or.inr ⟨resp, hdo, ?_⟩
      rcases h with h | h | ⟨h1, h2, h3, h4⟩
      · exact Or.inl h
      · exact Or.inr (Or.inl h)
      · exact Or.inr (Or.inr ⟨h1, ⟨h2, h3⟩, h4⟩)
  · rintro ⟨key, hkey, _, h⟩
    have hkk : s.rapidApiKeys.getD i [] = key := by
      rw [hget] at hkey
      exact Option.some.inj hkey
    rw [hkk]
    rcases h with h | ⟨resp, hdo, h⟩
    · exact Or.inl h
    · refine Or.inr ⟨resp, hdo, ?_⟩
      rcases h with h | h | ⟨h1, ⟨h2, h3⟩, h4⟩
      · exact Or.inl h
      · exact Or.inr (Or.inl h)
      · exact Or.inr (Or.inr ⟨h1, h2, h3, h4⟩)

/-- C3 fails as stated: with the host `bad host` the request cannot be built, so
`FetchVideo` returns the aggregate failure although no request was sent and no
credential was tried and failed in one of the four ways of the claim. -/
theorem FetchVideo_fails_untried :
    (FetchVideo badHost "https://vt.tiktok.com/ZS123/".toList).1
        = .error (.ErrorfW "all API keys failed. Last error: %w"
            (.lib "invalid character in host name")) ∧
      (FetchVideo badHost "https://vt.tiktok.com/ZS123/".toList).2.length = 0 ∧
      ¬ (∀ i, i < badHost.rapidApiKeys.length →
          ∃ e, TriedAndFailed badHost "https://vt.tiktok.com/ZS123/".toList i e) := by
  refine ⟨rfl, rfl, ?_⟩
  intro h
  obtain ⟨e, key, _, hreq, _⟩ := h 0 (by decide)
  exact absurd hreq (by decide)

/-- C3, amended: with a host and at least one credential configured, when the
endpoint is refused by the request builder `FetchVideo` fails without sending
any request, its error wrapping the error of the builder; when the endpoint is
accepted, `FetchVideo` returns a failure exactly when every credential of the
list was tried and failed (network error, status other than 200, undecodable
body, or empty `data.play`), and the failure returned then wraps the one
recorded for the last credential of the list, one request per credential having
gone out in configured order. -/
theorem FetchVideo_failure (s : tiktokService) (url : Str) (hhost : s.rapidApiHost ≠ [])
    (hkeys : s.rapidApiKeys ≠ []) :
    (∀ err, s.client.NewRequest "GET".toList (apiEndpointOf s url) = some err →
        FetchVideo s url = (.error (.ErrorfW "all API keys failed. Last error: %w" err), [])) ∧
      (s.client.NewRequest "GET".toList (apiEndpointOf s url) = none →
        ((∃ e, (FetchVideo s url).1 = .error e) ↔
          ∀ i, i < s.rapidApiKeys.length → ∃ e, TriedAndFailed s url i e) ∧
        (∀ e, (FetchVideo s url).1 = .error e →
          ∃ eLast, TriedAndFailed s url (s.rapidApiKeys.length - 1) eLast ∧
            e = .ErrorfW "all API keys failed. Last error: %w" eLast ∧
            (FetchVideo s url).2 = lookupRequests s url s.rapidApiKeys.length)) := by
  have hN : 0 < s.rapidApiKeys.length := List.length_pos.mpr hkeys
  constructor
  · intro err hreq
    have hout : ∀ i, outcomeAt s url i = .error err := by
      intro i
      unfold outcomeAt
      exact (tryKey_error_iff s _ _ _ err).mpr (Or.inl hreq)
    rcases FetchVideo_cases s url hhost hkeys with ⟨k, v, _, hv, _, _⟩ | ⟨_, hres⟩
    · rw [hout k] at hv
      cases hv
    · rw [hres, hout]
      simp only [errOf, Errorf, sentAfter, hreq]
  · intro hreq
    rcases FetchVideo_cases s url hhost hkeys with ⟨k, v, hk, hv, _, hres⟩ | ⟨hall, hres⟩
    · refine ⟨?_, ?_⟩
      · constructor
        · rintro ⟨e, he⟩
          rw [hres] at he
          cases he
        · intro h
          obtain ⟨e, he⟩ := h k hk
          rw [← outcomeAt_error_iff s url k e hreq hk, hv] at he
          cases he
      · intro e he
        rw [hres] at he
        cases he
    · obtain ⟨eLast, hLast⟩ := hall (s.rapidApiKeys.length - 1) (by omega)
      refine ⟨?_, ?_⟩
      · constructor
        · intro _ i hi
          obtain ⟨e, he⟩ := hall i hi
          exact ⟨e, (outcomeAt_error_iff s url i e hreq hi).mp he⟩
        · intro _
          exact ⟨_, by rw [hres]⟩
      · intro e he
        rw [hres, hLast] at he
        refine ⟨eLast, (outcomeAt_error_iff s url _ eLast hreq (by omega)).mp hLast, ?_, ?_⟩
        · simp only [errOf, Errorf, Except.error.injEq] at he
          exact he.symm
        · rw [hres]
          simp only [sentAfter, hreq]

theorem FetchVideo_failure_witness :
    FetchVideo badHost "https://vt.tiktok.com/ZS123/".toList
        = (.error (.ErrorfW "all API keys failed. Last error: %w"
            (.lib "invalid character in host name")), []) ∧
      ∃ eLast, TriedAndFailed fourBadKeys "https://vt.tiktok.com/ZS123/".toList
          (fourBadKeys.rapidApiKeys.length - 1) eLast ∧
        GoError.ErrorfW "all API keys failed. Last error: %w" (.lib "json: decode")
          = .ErrorfW "all API keys failed. Last error: %w" eLast ∧
        (FetchVideo fourBadKeys "https://vt.tiktok.com/ZS123/".toList).2
          = lookupRequests fourBadKeys "https://vt.tiktok.com/ZS123/".toList
              fourBadKeys.rapidApiKeys.length :=
  ⟨(FetchVideo_failure badHost "https://vt.tiktok.com/ZS123/".toList (by decide) (by decide)).1
      (.lib "invalid character in host name") (by decide),
   ((FetchVideo_failure fourBadKeys "https://vt.tiktok.com/ZS123/".toList (by decide)
      (by decide)).2 rfl).2
      (.ErrorfW "all API keys failed. Last error: %w" (.lib "json: decode")) rfl⟩

theorem tryKey_snd (s : tiktokService) (ep : Str) (sent : List HttpRequest) (key : Str) :
    (tryKey s ep sent key).2 = sent ∨ (tryKey s ep sent key).2 = sent ++ [lookupRequest s ep key] := by
  simp only [tryKey]
  repeat' split
  all_goals simp

theorem fetchLoop_sent (s : tiktokService) (ep : Str) (P : HttpRequest → Prop)
    (hP : ∀ key, P (lookupRequest s ep key)) :
    ∀ (rest : List Str) (lastErr : Option GoError) (sent : List HttpRequest),
      (∀ r ∈ sent, P r) →
      (∀ r ∈ (fetchLoop s ep rest lastErr sent).2, P r) ∧
        (fetchLoop s ep rest lastErr sent).2.length ≤ sent.length + rest.length := by
  intro rest
  induction rest with
  | nil =>
    intro lastErr sent hs
    exact ⟨hs, by simp [fetchLoop]⟩
  | cons key rest ih =>
    intro lastErr sent hs
    have hsnd := tryKey_snd s ep sent key
    have hs1 : ∀ r ∈ (tryKey s ep sent key).2, P r := by
      rcases hsnd with h | h
      · rw [h]; exact hs
      · rw [h]
        intro r hr
        rcases List.mem_append.mp hr with h1 | h1
        · exact hs r h1
        · rw [List.mem_singleton.mp h1]
          exact hP key
    have hl1 : (tryKey s ep sent key).2.length ≤ sent.length + 1 := by
      rcases hsnd with h | h
      · rw [h]; omega
      · rw [h]; simp
    rw [fetchLoop]
    rcases htk : tryKey s ep sent key with ⟨res, sent1⟩
    rw [htk] at hs1 hl1
    simp only at hs1 hl1
    cases res with
    | ok play =>
      simp only [List.length_cons]
      exact ⟨hs1, by omega⟩
    | error err =>
      simp only [List.length_cons]
      obtain ⟨h1, h2⟩ := ih (some err) sent1 hs1
      exact ⟨h1, by omega⟩

/-- C9 fails as stated: for host `h` and the extracted link
`https://vt.tiktok.com/a?b=1&c=2`, the URL requested is the host and the link
put together verbatim, which is not the one carrying the percent-encoded link. -/
theorem FetchVideo_endpoint_not_encoded :
    (FetchVideo ⟨echoClient none, "h".toList, ["k".toList]⟩
        "https://vt.tiktok.com/a?b=1&c=2".toList).2.map (fun r => r.URL)
        = ["https://h/?url=https://vt.tiktok.com/a?b=1&c=2".toList] ∧
      percentEncode "https://vt.tiktok.com/a?b=1&c=2".toList
        = "https%3A%2F%2Fvt.tiktok.com%2Fa%3Fb%3D1%26c%3D2".toList ∧
      (FetchVideo ⟨echoClient none, "h".toList, ["k".toList]⟩
        "https://vt.tiktok.com/a?b=1&c=2".toList).2.map (fun r => r.URL)
        ≠ ["https://".toList ++ "h".toList ++ "/?url=".toList
            ++ percentEncode "https://vt.tiktok.com/a?b=1&c=2".toList] := by
  decide

/-- C9, amended: every request sent by `FetchVideo` is a `GET` of
`https://` followed by the host, `/?url=` and the video page URL as given, with
no encoding applied; at most one request per credential is sent. -/
theorem FetchVideo_endpoint_verbatim (s : tiktokService) (url : Str) :
    (FetchVideo s url).2.map (fun r => (r.Method, r.URL))
        = List.replicate (FetchVideo s url).2.length
            ("GET".toList, "https://".toList ++ s.rapidApiHost ++ "/?url=".toList ++ url) ∧
      (FetchVideo s url).2.length ≤ s.rapidApiKeys.length := by
  have hloop := fetchLoop_sent s (apiEndpointOf s url)
    (fun r => (r.Method, r.URL)
      = ("GET".toList, "https://".toList ++ s.rapidApiHost ++ "/?url=".toList ++ url))
    (fun _ => rfl) s.rapidApiKeys none [] (by simp)
  have hall : (∀ r ∈ (FetchVideo s url).2, (r.Method, r.URL)
        = ("GET".toList, "https://".toList ++ s.rapidApiHost ++ "/?url=".toList ++ url)) ∧
      (FetchVideo s url).2.length ≤ s.rapidApiKeys.length := by
    unfold FetchVideo
    split
    · simp
    · split
      · simp
      · simpa [apiEndpointOf] using hloop
  refine ⟨?_, hall.2⟩
  rw [List.eq_replicate_iff]
  refine ⟨by simp, ?_⟩
  intro b hb
  obtain ⟨r, hr, rfl⟩ := List.mem_map.mp hb
  exact hall.1 r hr

theorem byteAt_last (b : Str) (hb : b ≠ []) :
    byteAt b ((b.length : Int) - 1) = b.getLast? := by
  have hpos := List.length_pos.mpr hb
  have h1 : 0 ≤ (b.length : Int) - 1 ∧ (b.length : Int) - 1 < b.length := by omega
  have h2 : ((b.length : Int) - 1).toNat = b.length - 1 := by omega
  unfold byteAt
  rw [if_pos h1, h2, List.getLast?_eq_getElem?, List.get?_eq_getElem?]

theorem sliceTo_last (b : Str) (hb : b ≠ []) :
    sliceTo b ((b.length : Int) - 1) = some b.dropLast := by
  have hpos := List.length_pos.mpr hb
  have h1 : 0 ≤ (b.length : Int) - 1 ∧ (b.length : Int) - 1 ≤ b.length := by omega
  have h2 : ((b.length : Int) - 1).toNat = b.length - 1 := by omega
  unfold sliceTo
  rw [if_pos h1, h2, List.dropLast_eq_take]

/-- C10: with the base URL or the session identifier empty, `SendMedia` returns
the configuration error and sends nothing. Otherwise it does not panic (the
read of the last byte of the base URL is in range), and what it sends is one
`POST` to the base URL without one trailing `/`, followed by
`/api/whatsapp/session/`, the session identifier and `/send-media` (nothing is
sent when that endpoint is refused as a URL). Removing one trailing `/` gives
`b` back from `b/` (so `x//` keeps one slash) and leaves a base without
trailing `/` unchanged. -/
theorem SendMedia_endpoint (s : whatsappService) (number mediaURL caption : Str) :
    (s.apiURL = [] →
        SendMedia s number mediaURL caption
          = (.returned (some (.New "WA_API_URL is missing")), [])) ∧
      (s.apiURL ≠ [] → s.sessionId = [] →
        SendMedia s number mediaURL caption
          = (.returned (some (.New "SESSION_ID is missing")), [])) ∧
      (s.apiURL ≠ [] → s.sessionId ≠ [] →
        (SendMedia s number mediaURL caption).1 ≠ .panicked ∧
        (SendMedia s number mediaURL caption).2.map (fun r => (r.Method, r.URL))
          = match s.client.NewRequest "POST".toList (mediaEndpoint s.apiURL s.sessionId) with
            | none => [("POST".toList, mediaEndpoint s.apiURL s.sessionId)]
            | some _ => []) ∧
      (∀ b : Str, stripSlash (b ++ ['/']) = b) ∧
      (∀ b : Str, b.getLast? ≠ some '/' → stripSlash b = b) := by
  refine ⟨?_, ?_, ?_, ?_, ?_⟩
  · intro h
    simp [SendMedia, h]
  · intro h1 h2
    have h3 : (s.apiURL == []) = false := by simpa using h1
    simp [SendMedia, h3, h2]
  · intro h1 h2
    have h3 : (s.apiURL == []) = false := by simpa using h1
    have h4 : (s.sessionId == []) = false := by simpa using h2
    obtain ⟨last, hlast⟩ : ∃ last, s.apiURL.getLast? = some last := by
      cases hl : s.apiURL.getLast? with
      | none => exact absurd (List.getLast?_eq_none_iff.mp hl) h1
      | some c => exact ⟨c, rfl⟩
    have htrim : (if (last == '/') = true then sliceTo s.apiURL ((s.apiURL.length : Int) - 1)
        else some s.apiURL) = some (stripSlash s.apiURL) := by
      unfold stripSlash
      rw [sliceTo_last s.apiURL h1, hlast]
      by_cases hc : last = '/'
      · simp [hc]
      · simp [hc]
    simp only [SendMedia, h3, h4, Bool.false_eq_true, if_false, byteAt_last s.apiURL h1, hlast,
      htrim]
    have hep : stripSlash s.apiURL ++ "/api/whatsapp/session/".toList ++ s.sessionId
        ++ "/send-media".toList = mediaEndpoint s.apiURL s.sessionId := rfl
    rw [hep]
    cases s.client.NewRequest "POST".toList (mediaEndpoint s.apiURL s.sessionId) with
    | some err => simp
    | none =>
      simp only
      repeat' split
      all_goals simp
  · intro b
    simp [stripSlash]
  · intro b hb
    simp [stripSlash, hb]

theorem SendMedia_endpoint_witness :
    (SendMedia (demoRelay "https://wa.example//".toList "ruli2".toList) "62@s".toList
        "https://cdn.example/v.mp4".toList "c".toList).1 ≠ .panicked ∧
      (SendMedia (demoRelay "https://wa.example//".toList "ruli2".toList) "62@s".toList
        "https://cdn.example/v.mp4".toList "c".toList).2.map (fun r => (r.Method, r.URL))
        = [("POST".toList, "https://wa.example//api/whatsapp/session/ruli2/send-media".toList)] :=
  (SendMedia_endpoint (demoRelay "https://wa.example//".toList "ruli2".toList) "62@s".toList
    "https://cdn.example/v.mp4".toList "c".toList).2.2.1 (by decide) (by decide)

/-! ### The pattern search -/

theorem plusLoop_sound (a : Regex) (step : Str → List Str)
    (hstep : ∀ s r, r ∈ step s → ∃ m, s = m ++ r ∧ Matches a m) :
    ∀ (fuel : Nat) (s r : Str), r ∈ plusLoop step fuel s → ∃ m, s = m ++ r ∧ Matches (.plus a) m := by
  intro fuel
  induction fuel with
  | zero =>
    intro s r h
    simp [plusLoop] at h
  | succ n ih =>
    intro s r h
    rw [plusLoop, List.mem_flatMap] at h
    obtain ⟨r1, hr1, hr⟩ := h
    obtain ⟨m1, hs, hm1⟩ := hstep s r1 hr1
    rcases List.mem_append.mp hr with h1 | h1
    · split at h1
      · obtain ⟨m2, hs2, hm2⟩ := ih r1 r h1
        refine ⟨m1 ++ m2, ?_, Matches.plusMore hm1 hm2⟩
        rw [hs, hs2, List.append_assoc]
      · simp at h1
    · rw [List.mem_singleton] at h1
      subst h1
      exact ⟨m1, hs, Matches.plusOne hm1⟩

theorem ends_sound : ∀ (re : Regex) (s r : Str), r ∈ ends re s → ∃ m, s = m ++ r ∧ Matches re m := by
  intro re
  induction re with
  | empty =>
    intro s r h
    simp only [ends, List.mem_singleton] at h
    exact ⟨[], by simp [h], Matches.empty⟩
  | lit c =>
    intro s r h
    cases s with
    | nil => simp [ends] at h
    | cons x t =>
      simp only [ends] at h
      split at h
      · rename_i hx
        simp only [List.mem_singleton] at h
        exact ⟨[c], by simp [h, hx], Matches.lit c⟩
      · simp at h
  | cls ranges =>
    intro s r h
    cases s with
    | nil => simp [ends] at h
    | cons x t =>
      simp only [ends] at h
      split at h
      · rename_i hx
        simp only [List.mem_singleton] at h
        exact ⟨[x], by simp [h], Matches.cls ranges x hx⟩
      · simp at h
  | seq a b iha ihb =>
    intro s r h
    simp only [ends, List.mem_flatMap] at h
    obtain ⟨r1, hr1, hr⟩ := h
    obtain ⟨m1, hs1, hm1⟩ := iha s r1 hr1
    obtain ⟨m2, hs2, hm2⟩ := ihb r1 r hr
    exact ⟨m1 ++ m2, by rw [hs1, hs2, List.append_assoc], Matches.seq hm1 hm2⟩
  | alt a b iha ihb =>
    intro s r h
    simp only [ends, List.mem_append] at h
    rcases h with h | h
    · obtain ⟨m, hs, hm⟩ := iha s r h
      exact ⟨m, hs, Matches.altL hm⟩
    · obtain ⟨m, hs, hm⟩ := ihb s r h
      exact ⟨m, hs, Matches.altR hm⟩
  | opt a iha =>
    intro s r h
    simp only [ends, List.mem_append, List.mem_singleton] at h
    rcases h with h | h
    · obtain ⟨m, hs, hm⟩ := iha s r h
      exact ⟨m, hs, Matches.optSome hm⟩
    · exact ⟨[], by simp [h], Matches.optNone⟩
  | plus a iha =>
    intro s r h
    simp only [ends] at h
    exact plusLoop_sound a (ends a) iha _ s r h

theorem plusLoop_mono (step : Str → List Str) :
    ∀ (fuel fuel1 : Nat) (s r : Str), fuel ≤ fuel1 →
      r ∈ plusLoop step fuel s → r ∈ plusLoop step fuel1 s := by
  intro fuel
  induction fuel with
  | zero =>
    intro fuel1 s r _ h
    simp [plusLoop] at h
  | succ n ih =>
    intro fuel1 s r hle h
    obtain ⟨n1, rfl⟩ : ∃ n1, fuel1 = n1 + 1 := ⟨fuel1 - 1, by omega⟩
    rw [plusLoop, List.mem_flatMap] at h ⊢
    obtain ⟨r1, hr1, hr⟩ := h
    refine ⟨r1, hr1, ?_⟩
    rcases List.mem_append.mp hr with h1 | h1
    · apply List.mem_append_left
      split at h1
      · rename_i hlt
        rw [if_pos hlt]
        exact ih n1 r1 r (by omega) h1
      · simp at h1
    · exact List.mem_append_right _ h1

theorem ends_complete {re : Regex} {m : Str} (hm : Matches re m) :
    ∀ r : Str, r ∈ ends re (m ++ r) := by
  induction hm with
  | empty => intro r; simp [ends]
  | lit c => intro r; simp [ends]
  | cls ranges c hc => intro r; simp [ends, hc]
  | @seq a b x y _ _ iha ihb =>
    intro r
    simp only [ends, List.mem_flatMap]
    exact ⟨y ++ r, by rw [List.append_assoc]; exact iha (y ++ r), ihb r⟩
  | altL _ ih => intro r; simp only [ends]; exact List.mem_append_left _ (ih r)
  | altR _ ih => intro r; simp only [ends]; exact List.mem_append_right _ (ih r)
  | optNone => intro r; simp [ends]
  | optSome _ ih => intro r; simp only [ends]; exact List.mem_append_left _ (ih r)
  | plusOne _ ih =>
    intro r
    simp only [ends]
    rw [plusLoop, List.mem_flatMap]
    exact ⟨r, ih r, List.mem_append_right _ (List.mem_singleton.mpr rfl)⟩
  | @plusMore a x y _ _ iha ihb =>
    intro r
    cases x with
    | nil => exact ihb r
    | cons c x =>
      simp only [ends] at ihb ⊢
      rw [plusLoop, List.mem_flatMap]
      refine ⟨y ++ r, by rw [List.append_assoc]; exact iha (y ++ r), ?_⟩
      apply List.mem_append_left
      have hlt : (y ++ r).length < (c :: x ++ y ++ r).length := by
        simp only [List.length_append, List.length_cons]
        omega
      rw [if_pos hlt]
      refine plusLoop_mono (ends a) _ _ _ _ ?_ (ihb r)
      simp only [List.length_append, List.length_cons]
      omega

theorem findFrom_some (re : Regex) :
    ∀ (s u : Str), findFrom re s = some u →
      ∃ pre post rest, s = pre ++ u ++ post ∧ ends re (u ++ post) = post :: rest ∧
        ∀ pre1 suf, s = pre1 ++ suf → pre1.length < pre.length → ends re suf = [] := by
  intro s
  induction s with
  | nil =>
    intro u h
    rw [findFrom] at h
    cases hE : ends re [] with
    | nil => simp [hE] at h
    | cons r rest =>
      simp only [hE, Option.some.injEq] at h
      subst h
      obtain ⟨m, hm, _⟩ := ends_sound re [] r (by rw [hE]; exact List.mem_cons_self _ _)
      have hr : r = [] := (List.append_eq_nil.mp hm.symm).2
      subst hr
      exact ⟨[], [], rest, rfl, hE, by intro _ _ _ h; simp at h⟩
  | cons c t ih =>
    intro u h
    rw [findFrom] at h
    cases hE : ends re (c :: t) with
    | cons r rest =>
      simp only [hE, Option.some.injEq] at h
      obtain ⟨m, hm, _⟩ := ends_sound re (c :: t) r (by rw [hE]; exact List.mem_cons_self _ _)
      have hu : u = m := by
        rw [← h, hm, List.length_append, Nat.add_sub_cancel, List.take_left]
      subst hu
      refine ⟨[], r, rest, by simpa using hm, by rw [← hm]; exact hE, ?_⟩
      intro _ _ _ h
      simp at h
    | nil =>
      simp only [hE] at h
      obtain ⟨pre, post, rest, hs, hhead, hbefore⟩ := ih u h
      refine ⟨c :: pre, post, rest, by simp [hs], hhead, ?_⟩
      intro pre1 suf hsuf hlen
      cases pre1 with
      | nil =>
        simp only [List.nil_append] at hsuf
        rw [← hsuf]
        exact hE
      | cons c1 p1 =>
        simp only [List.cons_append, List.cons.injEq] at hsuf
        exact hbefore p1 suf hsuf.2 (by simpa using hlen)

theorem findFrom_none (re : Regex) :
    ∀ (s : Str), findFrom re s = none → ∀ pre1 suf, s = pre1 ++ suf → ends re suf = [] := by
  intro s
  induction s with
  | nil =>
    intro h pre1 suf hs
    rw [findFrom] at h
    have hsuf : suf = [] := (List.append_eq_nil.mp hs.symm).2
    subst hsuf
    cases hE : ends re [] with
    | nil => rfl
    | cons r rest => simp [hE] at h
  | cons c t ih =>
    intro h pre1 suf hs
    rw [findFrom] at h
    cases hE : ends re (c :: t) with
    | cons r rest => simp [hE] at h
    | nil =>
      simp only [hE] at h
      cases pre1 with
      | nil =>
        simp only [List.nil_append] at hs
        rw [← hs]
        exact hE
      | cons c1 p1 =>
        simp only [List.cons_append, List.cons.injEq] at hs
        exact ih h p1 suf hs.2

theorem Matches_seq_iff (a b : Regex) (m : Str) :
    Matches (.seq a b) m ↔ ∃ x y, m = x ++ y ∧ Matches a x ∧ Matches b y := by
  constructor
  · intro h
    cases h with
    | seq h1 h2 => exact ⟨_, _, rfl, h1, h2⟩
  · rintro ⟨x, y, rfl, h1, h2⟩
    exact Matches.seq h1 h2

theorem Matches_lit_iff (c : Char) (m : Str) : Matches (.lit c) m ↔ m = [c] := by
  constructor
  · intro h
    cases h
    rfl
  · rintro rfl
    exact Matches.lit c

theorem Matches_empty_iff (m : Str) : Matches .empty m ↔ m = [] := by
  constructor
  · intro h
    cases h
    rfl
  · rintro rfl
    exact Matches.empty

theorem Matches_opt_iff (a : Regex) (m : Str) : Matches (.opt a) m ↔ m = [] ∨ Matches a m := by
  constructor
  · intro h
    cases h with
    | optNone => exact Or.inl rfl
    | optSome h1 => exact Or.inr h1
  · rintro (rfl | h)
    · exact Matches.optNone
    · exact Matches.optSome h

theorem Matches_alt_iff (a b : Regex) (m : Str) :
    Matches (.alt a b) m ↔ Matches a m ∨ Matches b m := by
  constructor
  · intro h
    cases h with
    | altL h1 => exact Or.inl h1
    | altR h1 => exact Or.inr h1
  · rintro (h | h)
    · exact Matches.altL h
    · exact Matches.altR h

theorem Matches_lits_iff : ∀ (w m : Str), Matches (Regex.lits w) m ↔ m = w := by
  intro w
  induction w with
  | nil =>
    intro m
    simp only [Regex.lits, Matches_empty_iff]
  | cons c cs ih =>
    intro m
    simp only [Regex.lits, Matches_seq_iff, Matches_lit_iff, ih]
    constructor
    · rintro ⟨x, y, rfl, rfl, rfl⟩
      rfl
    · rintro rfl
      exact ⟨[c], cs, rfl, rfl, rfl⟩

theorem Matches_tiktokHead (w : Str) (h : Matches tiktokHead w) : w ∈ tiktokHeads := by
  simp only [tiktokHead, Matches_seq_iff, Matches_lits_iff, Matches_opt_iff, Matches_alt_iff,
    Matches_lit_iff] at h
  obtain ⟨x1, y1, rfl, rfl, x2, y2, rfl, hs, x3, y3, rfl, rfl, x4, y4, rfl, hsub, rfl⟩ := h
  rcases hs with rfl | rfl <;> rcases hsub with rfl | rfl | rfl <;> decide

theorem tiktokHeads_prefix_free :
    ∀ w1 ∈ tiktokHeads, ∀ w2 ∈ tiktokHeads, w1 <+: w2 → w1 = w2 := by
  decide

theorem ends_plus (a : Regex) (s : Str) :
    ends (.plus a) s = plusLoop (ends a) (s.length + 1) s := rfl

theorem ends_seq_fun (a b : Regex) : ends (.seq a b) = fun s => (ends a s).flatMap (ends b) := by
  funext s
  rfl

theorem ends_tiktokRegex (s : Str) :
    ends tiktokRegex s
      = (ends tiktokHead s).flatMap
          (ends (.plus (.cls [('a', 'z'), ('A', 'Z'), ('0', '9'), ('/', '/'), ('_', '_'),
            ('?', '?'), ('=', '='), ('&', '&'), ('%', '%'), ('-', '-')]))) := by
  simp only [tiktokRegex, tiktokHead, ends_seq_fun, List.flatMap_assoc]

theorem ends_tiktokHead_unique (s r1 r2 : Str) (h1 : r1 ∈ ends tiktokHead s)
    (h2 : r2 ∈ ends tiktokHead s) : r1 = r2 := by
  obtain ⟨w1, hs1, hm1⟩ := ends_sound tiktokHead s r1 h1
  obtain ⟨w2, hs2, hm2⟩ := ends_sound tiktokHead s r2 h2
  have hw1 := Matches_tiktokHead w1 hm1
  have hw2 := Matches_tiktokHead w2 hm2
  have hp1 : w1 <+: s := ⟨r1, hs1.symm⟩
  have hp2 : w2 <+: s := ⟨r2, hs2.symm⟩
  have hw : w1 = w2 := by
    rcases List.prefix_or_prefix_of_prefix hp1 hp2 with h | h
    · exact tiktokHeads_prefix_free w1 hw1 w2 hw2 h
    · exact (tiktokHeads_prefix_free w2 hw2 w1 hw1 h).symm
  subst hw
  rw [hs1] at hs2
  exact List.append_cancel_left hs2

theorem plusLoop_cls_sorted (ranges : List (Char × Char)) :
    ∀ (fuel : Nat) (s : Str),
      (plusLoop (ends (.cls ranges)) fuel s).Pairwise (fun a b => a.length ≤ b.length) ∧
        ∀ r ∈ plusLoop (ends (.cls ranges)) fuel s, r.length < s.length := by
  intro fuel
  induction fuel with
  | zero =>
    intro s
    simp [plusLoop]
  | succ n ih =>
    intro s
    cases s with
    | nil => simp [plusLoop, ends]
    | cons c t =>
      by_cases hc : inClass ranges c = true
      · obtain ⟨ih1, ih2⟩ := ih t
        have hstep : plusLoop (ends (.cls ranges)) (n + 1) (c :: t)
            = plusLoop (ends (.cls ranges)) n t ++ [t] := by
          simp [plusLoop, ends, hc]
        rw [hstep]
        constructor
        · rw [List.pairwise_append]
          refine ⟨ih1, List.pairwise_singleton _ _, ?_⟩
          intro a ha b hb
          rw [List.mem_singleton.mp hb]
          exact Nat.le_of_lt (ih2 a ha)
        · intro r hr
          rcases List.mem_append.mp hr with h | h
          · have := ih2 r h
            simp only [List.length_cons]
            omega
          · rw [List.mem_singleton.mp h]
            simp
      · simp [plusLoop, ends, hc]

theorem ends_tiktokRegex_head_shortest (s r0 : Str) (rest : List Str)
    (h : ends tiktokRegex s = r0 :: rest) :
    ∀ r ∈ ends tiktokRegex s, r0.length ≤ r.length := by
  rw [ends_tiktokRegex] at h ⊢
  cases hL : ends tiktokHead s with
  | nil => simp [hL] at h
  | cons a L =>
    have hall : ∀ b ∈ ends tiktokHead s, b = a := by
      intro b hb
      exact ends_tiktokHead_unique s b a hb (by rw [hL]; exact List.mem_cons_self _ _)
    rw [hL] at h hall
    obtain ⟨hsorted, _⟩ := plusLoop_cls_sorted
      [('a', 'z'), ('A', 'Z'), ('0', '9'), ('/', '/'), ('_', '_'), ('?', '?'), ('=', '='),
       ('&', '&'), ('%', '%'), ('-', '-')] (a.length + 1) a
    have hmem : ∀ r ∈ (a :: L).flatMap
        (ends (.plus (.cls [('a', 'z'), ('A', 'Z'), ('0', '9'), ('/', '/'), ('_', '_'),
          ('?', '?'), ('=', '='), ('&', '&'), ('%', '%'), ('-', '-')]))),
        r ∈ ends (.plus (.cls [('a', 'z'), ('A', 'Z'), ('0', '9'), ('/', '/'), ('_', '_'),
          ('?', '?'), ('=', '='), ('&', '&'), ('%', '%'), ('-', '-')])) a := by
      intro r hr
      obtain ⟨b, hb, hrb⟩ := List.mem_flatMap.mp hr
      rw [hall b hb] at hrb
      exact hrb
    have hr0 := hmem r0 (by rw [h]; exact List.mem_cons_self _ _)
    cases hfa : ends (.plus (.cls [('a', 'z'), ('A', 'Z'), ('0', '9'), ('/', '/'), ('_', '_'),
        ('?', '?'), ('=', '='), ('&', '&'), ('%', '%'), ('-', '-')])) a with
    | nil =>
      rw [hfa] at hr0
      simp at hr0
    | cons x xs =>
      have hx : x = r0 := by
        rw [List.flatMap_cons, hfa] at h
        simp only [List.cons_append, List.cons.injEq] at h
        exact h.1
      subst hx
      intro r hr
      have hr2 := hmem r hr
      rw [hfa] at hr2
      rw [ends_plus] at hfa
      rw [hfa, List.pairwise_cons] at hsorted
      rcases List.mem_cons.mp hr2 with hrx | hrx
      · rw [hrx]
      · exact hsorted.1 r hrx

theorem Matches_tiktokRegex_ne_nil (m : Str) (h : Matches tiktokRegex m) : m ≠ [] := by
  simp only [tiktokRegex, Matches_seq_iff, Matches_lits_iff] at h
  obtain ⟨x1, y1, rfl, rfl, _⟩ := h
  simp

theorem FindString_tiktokRegex (content : Str) :
    (¬ HasMatch tiktokRegex content ∧ FindString tiktokRegex content = []) ∨
      (IsLeftmostMatch tiktokRegex content (FindString tiktokRegex content) ∧
        FindString tiktokRegex content ≠ []) := by
  unfold FindString
  cases hF : findFrom tiktokRegex content with
  | none =>
    left
    refine ⟨?_, rfl⟩
    rintro ⟨pre, m, post, hc, hm⟩
    have hE := findFrom_none tiktokRegex content hF pre (m ++ post)
      (by rw [hc, List.append_assoc])
    have := ends_complete hm post
    rw [hE] at this
    simp at this
  | some u =>
    right
    obtain ⟨pre, post, rest, hs, hhead, hbefore⟩ := findFrom_some tiktokRegex content u hF
    have hmu : Matches tiktokRegex u := by
      obtain ⟨m, hm, hmm⟩ := ends_sound tiktokRegex (u ++ post) post
        (by rw [hhead]; exact List.mem_cons_self _ _)
      have : u = m := List.append_cancel_right hm
      rw [this]
      exact hmm
    simp only [Option.getD_some]
    refine ⟨⟨pre, post, hs, hmu, ?_⟩, Matches_tiktokRegex_ne_nil u hmu⟩
    intro pre1 m1 post1 hc1 hm1
    have hmem1 := ends_complete hm1 post1
    constructor
    · by_contra hlt
      have hE := hbefore pre1 (m1 ++ post1) (by rw [hc1, List.append_assoc]) (by omega)
      rw [hE] at hmem1
      simp at hmem1
    · intro hlen
      have heq : pre1 ++ (m1 ++ post1) = pre ++ (u ++ post) := by
        rw [← List.append_assoc, ← List.append_assoc, ← hc1, ← hs]
      obtain ⟨_, hsuf⟩ := List.append_inj heq hlen
      rw [hsuf] at hmem1
      have hle := ends_tiktokRegex_head_shortest (u ++ post) post rest hhead post1 hmem1
      have hl := congrArg List.length hsuf
      simp only [List.length_append] at hl
      omega

theorem HandleWebhook_calls (h : WebhookHandler) (e : Str) (w : ResponseWriter)
    (doc : Option Json) (p : WebhookPayload) (hn : normalizePayload doc = some p) :
    (HandleWebhook h e w (postOf doc)).calls = [] ∨
      (FindString tiktokRegex p.Data.Content ≠ [] ∧
        ∃ rest, (HandleWebhook h e w (postOf doc)).calls
          = .FetchVideo (FindString tiktokRegex p.Data.Content) :: rest ∧
          ∀ c ∈ rest, ∃ number mediaURL caption, c = .SendMedia number mediaURL caption) := by
  simp only [HandleWebhook, postOf, hn, bne_self_eq_false, Bool.false_eq_true, if_false]
  generalize Contains p.Data.Content "https://".toList = cv
  by_cases hs : (e != [] && p.SessionId != e) = true
  · rw [if_pos hs]
    exact Or.inl rfl
  · rw [if_neg hs]
    cases cv with
    | false => exact Or.inl rfl
    | true =>
      simp only [Bool.not_true, Bool.false_eq_true, if_false]
      by_cases hu : FindString tiktokRegex p.Data.Content = []
      · have hu2 : (FindString tiktokRegex p.Data.Content == []) = true := by simpa using hu
        rw [if_pos hu2]
        exact Or.inl rfl
      · have hu2 : ¬ (FindString tiktokRegex p.Data.Content == []) = true := by simpa using hu
        rw [if_neg hu2]
        right
        refine ⟨hu, ?_⟩
        cases h.tiktokService (FindString tiktokRegex p.Data.Content) with
        | error err => exact ⟨[], rfl, by simp⟩
        | ok videoURL =>
          simp only
          split
          · exact ⟨[], rfl, by simp⟩
          · split
            · exact ⟨_, rfl, by simp⟩
            · exact ⟨_, rfl, by simp⟩

theorem HandleWebhook_calls_head (h : WebhookHandler) (e : Str) (w : ResponseWriter)
    (doc : Option Json) (p : WebhookPayload) (hn : normalizePayload doc = some p)
    (hs : e = [] ∨ p.SessionId = e) (hc : "https://".toList <:+: p.Data.Content)
    (hu : FindString tiktokRegex p.Data.Content ≠ []) :
    (HandleWebhook h e w (postOf doc)).calls.head?
      = some (.FetchVideo (FindString tiktokRegex p.Data.Content)) := by
  have hc2 : Contains p.Data.Content "https://".toList = true := (Contains_iff _ _).mpr hc
  have hs2 : (e != [] && p.SessionId != e) = false := by
    rcases hs with hs | hs
    · simp [hs]
    · simp [hs]
  have hu2 : (FindString tiktokRegex p.Data.Content == []) = false := by simpa using hu
  simp only [HandleWebhook, postOf, hn, bne_self_eq_false, Bool.false_eq_true, if_false, hc2,
    Bool.not_true, hs2, hu2]
  cases h.tiktokService (FindString tiktokRegex p.Data.Content) with
  | error err => rfl
  | ok videoURL =>
    simp only
    repeat' split
    all_goals rfl

/-- C7: for a message that normalised to `p`, every URL the handler passes to
`FetchVideo` is the leftmost substring of the content matching the pattern (no
match starts before it, and it is the longest match starting there), so a later
link is never used; when the message passes the session rule and the `https://`
pre-filter and the content has a match, `FetchVideo` is called first, with that
leftmost match; when the content has no match no service is called. -/
theorem extraction_leftmost (h : WebhookHandler) (e : Str) (w : ResponseWriter)
    (doc : Option Json) (p : WebhookPayload) (hn : normalizePayload doc = some p) :
    (∀ u, Call.FetchVideo u ∈ (HandleWebhook h e w (postOf doc)).calls →
        IsLeftmostMatch tiktokRegex p.Data.Content u) ∧
      ((e = [] ∨ p.SessionId = e) → "https://".toList <:+: p.Data.Content →
        HasMatch tiktokRegex p.Data.Content →
        ∃ u, (HandleWebhook h e w (postOf doc)).calls.head? = some (.FetchVideo u) ∧
          IsLeftmostMatch tiktokRegex p.Data.Content u) ∧
      (¬ HasMatch tiktokRegex p.Data.Content → (HandleWebhook h e w (postOf doc)).calls = []) := by
  have hspec := FindString_tiktokRegex p.Data.Content
  have hcalls := HandleWebhook_calls h e w doc p hn
  refine ⟨?_, ?_, ?_⟩
  · intro u hu
    rcases hcalls with h0 | ⟨hne, rest, hrest, hsend⟩
    · rw [h0] at hu
      simp at hu
    · rw [hrest] at hu
      rcases List.mem_cons.mp hu with h1 | h1
      · rcases hspec with ⟨_, h2⟩ | ⟨h2, _⟩
        · exact absurd h2 hne
        · cases h1
          exact h2
      · obtain ⟨n, m, c, hc⟩ := hsend _ h1
        cases hc
  · intro hs hc hm
    rcases hspec with ⟨h2, _⟩ | ⟨h2, hne⟩
    · exact absurd hm h2
    · exact ⟨_, HandleWebhook_calls_head h e w doc p hn hs hc hne, h2⟩
  · intro hno
    rcases hcalls with h0 | ⟨hne, _⟩
    · exact h0
    · rcases hspec with ⟨_, h2⟩ | ⟨⟨pre, post, h3, h4, _⟩, _⟩
      · exact absurd h2 hne
      · exact absurd ⟨pre, _, post, h3, h4⟩ hno

theorem extraction_leftmost_witness :
    IsLeftmostMatch tiktokRegex
      "a http://tiktok.com/x?y=1 b https://vt.tiktok.com/ZS123/".toList
      "http://tiktok.com/x?y=1".toList :=
  (extraction_leftmost ⟨fun _ => .ok "m".toList, fun _ _ _ => none⟩ "abc".toList {}
      (some (payloadJson "abc".toList
        "a http://tiktok.com/x?y=1 b https://vt.tiktok.com/ZS123/".toList "62@s".toList))
      { SessionId := "abc".toList,
        Data := { Content := "a http://tiktok.com/x?y=1 b https://vt.tiktok.com/ZS123/".toList,
                  FullMessage := { Key := { SenderPn := "62@s".toList } } } }
      rfl).1 "http://tiktok.com/x?y=1".toList (by decide)

end TikTokAutomation
